import Mathlib

/-!
# Verification of the chordcraft core library

A shallow embedding of the `chordcraft-core` Rust crate (modules `note`,
`interval`, `chord`, `fingering`, `instrument`, `generator`, `shapes`,
`progression`) together with theorems settling the specification claims
about it.

Modelling conventions:
* Rust `u8`/`usize`/`u32` values are modelled as `Nat`; `i32` values as `Int`.
  Where the source can wrap (release-mode overflow or an `as` cast) the wrap
  is modelled explicitly with `% 256` / an explicit `i8` reinterpretation.
* Rust `Result<T, ChordCraftError>` is modelled as `Except ChordCraftError T`.
* `Vec<T>` / slices are modelled as `List T`.
* Rust's `sort_by` is a stable sort; it is modelled by `List.insertionSort`,
  which Mathlib documents to be stable, with the same comparator.  A stable
  sort's output is uniquely determined by the comparator and the input order,
  so the model is exact.
* The only use of an unordered container whose iteration order is observable
  is the `HashMap` in `has_high_barre_with_threshold`; the iteration order is
  made explicit as a function parameter `ord` reordering the canonical
  (insertion-ordered) group list.  `BTreeMap` (in `min_fingers_required`)
  iterates in sorted key order and is modelled by sorting the keys.
* The single floating-point computation (`finger_ratio` in
  `playability_score_with_params`) compares `fingers as f32 / max_fingers as
  f32` against the exactly representable constants 0.25, 0.5 and 0.75.  For
  `u8` numerators and denominators the rounding error of the `f32` division
  (about 2⁻²⁵ near these constants) is far smaller than the smallest possible
  nonzero excess of a true ratio over a constant (at least 1/(4·255)), so the
  comparisons are equivalent to the exact rational comparisons used here
  (`4*fingers ≤ max`, `2*fingers ≤ max`, `4*fingers ≤ 3*max`); `0/0` gives
  `NaN`, for which all three comparisons are false, and that case is modelled
  by the explicit `maxFingers = 0` test.
* Unicode case conversion: Rust's `to_lowercase`/`to_uppercase` are
  full-Unicode, Lean's `String.toLower`/`toUpper` are ASCII-only.  They agree
  on every ASCII string; all concrete inputs used in the theorems are ASCII.
-/

set_option linter.unusedVariables false

namespace ChordCraft

/-- Errors of the library (`lib.rs`, `pub mod error`).  Message payloads are
kept where a claim can observe them. -/
inductive ChordCraftError where
  | InvalidChordName (s : String)
  | InvalidNote (s : String)
  | InvalidInterval (s : String)
  | InvalidFingering (s : String)
  | NoFingeringsFound (s : String)
  | ChordNotIdentified
  | InvalidCapoPosition (fret lo hi : Nat)
  | InvalidInstrument (s : String)
  deriving DecidableEq, Repr

instance {α β : Type} [DecidableEq α] [DecidableEq β] : DecidableEq (Except α β) :=
  fun a b =>
    match a, b with
    | .ok x, .ok y =>
        if h : x = y then .isTrue (by rw [h]) else .isFalse (by intro hc; cases hc; exact h rfl)
    | .error x, .error y =>
        if h : x = y then .isTrue (by rw [h]) else .isFalse (by intro hc; cases hc; exact h rfl)
    | .ok _, .error _ => .isFalse (by intro hc; cases hc)
    | .error _, .ok _ => .isFalse (by intro hc; cases hc)

/-- Rust `str::trim` on a character list (ASCII/Lean whitespace; agrees with
Rust on the whitespace characters occurring in any in-scope input). -/
def rustTrim (cs : List Char) : List Char :=
  ((cs.dropWhile Char.isWhitespace).reverse.dropWhile Char.isWhitespace).reverse

/-- `note.rs`: the twelve pitch classes. -/
inductive PitchClass where
  | C | CSharp | D | DSharp | E | F | FSharp | G | GSharp | A | ASharp | B
  deriving DecidableEq, Repr

namespace PitchClass

/-- `PitchClass::to_semitone`. -/
def toSemitone : PitchClass → Nat
  | .C => 0 | .CSharp => 1 | .D => 2 | .DSharp => 3 | .E => 4 | .F => 5
  | .FSharp => 6 | .G => 7 | .GSharp => 8 | .A => 9 | .ASharp => 10 | .B => 11

/-- `PitchClass::from_semitone` (matches on `semitone % 12`). -/
def fromSemitone (semitone : Nat) : PitchClass :=
  match semitone % 12 with
  | 0 => .C | 1 => .CSharp | 2 => .D | 3 => .DSharp | 4 => .E | 5 => .F
  | 6 => .FSharp | 7 => .G | 8 => .GSharp | 9 => .A | 10 => .ASharp | _ => .B

/-- `PitchClass::parse`; comparison is against the uppercased trimmed input
(case mapping done per character, ASCII — see the file header). -/
def parse (s : String) : Except ChordCraftError PitchClass :=
  let tl := rustTrim s.toList
  let t := String.mk tl
  match String.mk (tl.map Char.toUpper) with
  | "C" => .ok .C
  | "C#" | "CS" | "DB" | "D♭" => .ok .CSharp
  | "D" => .ok .D
  | "D#" | "DS" | "EB" | "E♭" => .ok .DSharp
  | "E" => .ok .E
  | "F" => .ok .F
  | "F#" | "FS" | "GB" | "G♭" => .ok .FSharp
  | "G" => .ok .G
  | "G#" | "GS" | "AB" | "A♭" => .ok .GSharp
  | "A" => .ok .A
  | "A#" | "AS" | "BB" | "B♭" => .ok .ASharp
  | "B" => .ok .B
  | _ => .error (.InvalidNote t)

/-- `PitchClass::add_semitones` (wraps with `rem_euclid(12)`). -/
def addSemitones (p : PitchClass) (semitones : Int) : PitchClass :=
  fromSemitone ((((p.toSemitone : Int) + semitones) % 12)).toNat

end PitchClass

/-- `note.rs`: an octave-aware note.  The octave is an `i8` in the source;
it is modelled as `Int`, with the `i8`/`u8` wrap made explicit in `toMidi`. -/
structure Note where
  pitch : PitchClass
  octave : Int
  deriving DecidableEq, Repr

namespace Note

/-- `Note::to_midi`: `((octave + 1) * 12 + semitone as i8) as u8`.  The `i8`
arithmetic may wrap in release mode and the final cast reinterprets as `u8`;
the composition of both wraps is reduction mod 256. -/
def toMidi (n : Note) : Nat :=
  ((((n.octave + 1) * 12 + (n.pitch.toSemitone : Int)) % 256)).toNat

/-- `midi as i8`: reinterpret a `u8` value as `i8`. -/
def i8OfU8 (m : Nat) : Int :=
  if m % 256 < 128 then (m % 256 : Int) else (m % 256 : Int) - 256

/-- `Note::from_midi`: octave `(midi as i8) / 12 - 1` (`i8` division truncates
toward zero, `Int.div`), pitch from `midi % 12`. -/
def fromMidi (midi : Nat) : Note :=
  { octave := Int.tdiv (i8OfU8 midi) 12 - 1
    pitch := PitchClass.fromSemitone (midi % 256 % 12) }

/-- `Note::add_semitones`: add in `i32`, clamp into the MIDI range `0..=127`,
convert back through `from_midi`. -/
def addSemitones (n : Note) (semitones : Int) : Note :=
  fromMidi (min 127 (max 0 ((n.toMidi : Int) + semitones))).toNat

end Note

/-- `interval.rs`: interval quality. -/
inductive IntervalQuality where
  | Perfect | Major | Minor | Augmented | Diminished
  deriving DecidableEq, Repr

/-- `interval.rs`: an interval; `distance` is 1-based. -/
structure Interval where
  quality : IntervalQuality
  distance : Nat
  deriving DecidableEq, Repr

namespace Interval

/-- The `base_semitones` table of `Interval::to_semitones` for distances
`1..=8` (other distances never reach this table). -/
def baseSemitones : Nat → Nat
  | 1 => 0 | 2 => 2 | 3 => 4 | 4 => 5 | 5 => 7 | 6 => 9 | 7 => 11 | 8 => 12
  | _ => 0

/-- `Interval::is_perfect_interval`: normalise `(distance - 1) % 7 + 1` (the
subtraction is `u8` arithmetic, wrapping at `distance = 0`) and test for
1, 4 or 5. -/
def isPerfectInterval (d : Nat) : Bool :=
  let normalized := (d + 255) % 256 % 7 + 1
  normalized = 1 || normalized = 4 || normalized = 5

/-- The quality adjustment applied to `base_semitones` in
`Interval::to_semitones`; the `-1` cases are `u8` subtractions (wrapping,
hence `+255` mod 256 — only reachable with a wrap for diminished unisons,
which no caller builds). -/
def qualityAdjust (q : IntervalQuality) (d base : Nat) : Nat :=
  match q, isPerfectInterval d with
  | .Perfect, true => base
  | .Major, false => base
  | .Minor, false => (base + 255) % 256
  | .Augmented, _ => (base + 1) % 256
  | .Diminished, _ => (base + 255) % 256
  | _, _ => base

/-- `Interval::to_semitones`.  For distances outside `1..=8` the source
computes `octaves = (d-1)/7`, `remainder = (d-1)%7 + 1` (in `u8` arithmetic)
and recurses; the recursive call always has `1 ≤ remainder ≤ 7` and therefore
lands in the base table, so it is expanded here non-recursively. -/
def toSemitones (iv : Interval) : Nat :=
  match iv.distance with
  | 1 | 2 | 3 | 4 | 5 | 6 | 7 | 8 =>
      qualityAdjust iv.quality iv.distance (baseSemitones iv.distance)
  | d =>
      let dm := (d + 255) % 256
      let octaves := dm / 7
      let remainder := dm % 7 + 1
      (octaves * 12 + qualityAdjust iv.quality remainder (baseSemitones remainder)) % 256

end Interval

/-- Interval constants from `interval.rs`. -/
def UNISON : Interval := ⟨.Perfect, 1⟩
def MAJOR_SECOND : Interval := ⟨.Major, 2⟩
def MINOR_THIRD : Interval := ⟨.Minor, 3⟩
def MAJOR_THIRD : Interval := ⟨.Major, 3⟩
def PERFECT_FOURTH : Interval := ⟨.Perfect, 4⟩
def PERFECT_FIFTH : Interval := ⟨.Perfect, 5⟩
def MAJOR_SIXTH : Interval := ⟨.Major, 6⟩
def MINOR_SEVENTH : Interval := ⟨.Minor, 7⟩
def MAJOR_SEVENTH : Interval := ⟨.Major, 7⟩
def MINOR_NINTH : Interval := ⟨.Minor, 9⟩
def MAJOR_NINTH : Interval := ⟨.Major, 9⟩
def PERFECT_ELEVENTH : Interval := ⟨.Perfect, 11⟩
def MAJOR_THIRTEENTH : Interval := ⟨.Major, 13⟩

/-- `chord.rs`: chord qualities. -/
inductive ChordQuality where
  | Major | Minor | Diminished | Augmented
  | Sus2 | Sus4
  | Dominant7 | Major7 | Minor7 | MinorMajor7 | Diminished7 | HalfDiminished7
  | Dominant9 | Major9 | Minor9 | Dominant11 | Minor11
  | Dominant13 | Major13 | Minor13
  | Dominant7b9 | Dominant7sharp9 | Dominant7b5 | Dominant7sharp5
  | Add9 | MinorAdd9 | Add11
  | Major6 | Minor6
  deriving DecidableEq, Repr

namespace ChordQuality

/-- `ChordQuality::intervals`: `(required, optional)`. -/
def intervals : ChordQuality → List Interval × List Interval
  | .Major => ([UNISON, MAJOR_THIRD, PERFECT_FIFTH], [])
  | .Minor => ([UNISON, MINOR_THIRD, PERFECT_FIFTH], [])
  | .Diminished => ([UNISON, MINOR_THIRD, ⟨.Diminished, 5⟩], [])
  | .Augmented => ([UNISON, MAJOR_THIRD, ⟨.Augmented, 5⟩], [])
  | .Sus2 => ([UNISON, MAJOR_SECOND, PERFECT_FIFTH], [])
  | .Sus4 => ([UNISON, PERFECT_FOURTH, PERFECT_FIFTH], [])
  | .Dominant7 => ([UNISON, MAJOR_THIRD, PERFECT_FIFTH, MINOR_SEVENTH], [])
  | .Major7 => ([UNISON, MAJOR_THIRD, PERFECT_FIFTH, MAJOR_SEVENTH], [])
  | .Minor7 => ([UNISON, MINOR_THIRD, PERFECT_FIFTH, MINOR_SEVENTH], [])
  | .MinorMajor7 => ([UNISON, MINOR_THIRD, PERFECT_FIFTH, MAJOR_SEVENTH], [])
  | .Diminished7 => ([UNISON, MINOR_THIRD, ⟨.Diminished, 5⟩, ⟨.Diminished, 7⟩], [])
  | .HalfDiminished7 => ([UNISON, MINOR_THIRD, ⟨.Diminished, 5⟩, MINOR_SEVENTH], [])
  | .Dominant9 => ([UNISON, MAJOR_THIRD, MINOR_SEVENTH, MAJOR_NINTH], [PERFECT_FIFTH])
  | .Major9 => ([UNISON, MAJOR_THIRD, MAJOR_SEVENTH, MAJOR_NINTH], [PERFECT_FIFTH])
  | .Minor9 => ([UNISON, MINOR_THIRD, MINOR_SEVENTH, MAJOR_NINTH], [PERFECT_FIFTH])
  | .Dominant11 =>
      ([UNISON, MAJOR_THIRD, MINOR_SEVENTH, MAJOR_NINTH, PERFECT_ELEVENTH], [PERFECT_FIFTH])
  | .Minor11 =>
      ([UNISON, MINOR_THIRD, MINOR_SEVENTH, MAJOR_NINTH, PERFECT_ELEVENTH], [PERFECT_FIFTH])
  | .Dominant13 =>
      ([UNISON, MAJOR_THIRD, MINOR_SEVENTH, MAJOR_NINTH, MAJOR_THIRTEENTH],
       [PERFECT_FIFTH, PERFECT_ELEVENTH])
  | .Major13 =>
      ([UNISON, MAJOR_THIRD, MAJOR_SEVENTH, MAJOR_NINTH, MAJOR_THIRTEENTH],
       [PERFECT_FIFTH, PERFECT_ELEVENTH])
  | .Minor13 =>
      ([UNISON, MINOR_THIRD, MINOR_SEVENTH, MAJOR_NINTH, MAJOR_THIRTEENTH],
       [PERFECT_FIFTH, PERFECT_ELEVENTH])
  | .Dominant7b9 =>
      ([UNISON, MAJOR_THIRD, PERFECT_FIFTH, MINOR_SEVENTH, MINOR_NINTH], [])
  | .Dominant7sharp9 =>
      ([UNISON, MAJOR_THIRD, PERFECT_FIFTH, MINOR_SEVENTH, ⟨.Augmented, 9⟩], [])
  | .Dominant7b5 => ([UNISON, MAJOR_THIRD, ⟨.Diminished, 5⟩, MINOR_SEVENTH], [])
  | .Dominant7sharp5 => ([UNISON, MAJOR_THIRD, ⟨.Augmented, 5⟩, MINOR_SEVENTH], [])
  | .Add9 => ([UNISON, MAJOR_THIRD, PERFECT_FIFTH, MAJOR_NINTH], [])
  | .MinorAdd9 => ([UNISON, MINOR_THIRD, PERFECT_FIFTH, MAJOR_NINTH], [])
  | .Add11 => ([UNISON, MAJOR_THIRD, PERFECT_FIFTH, PERFECT_ELEVENTH], [])
  | .Major6 => ([UNISON, MAJOR_THIRD, PERFECT_FIFTH, MAJOR_SIXTH], [])
  | .Minor6 => ([UNISON, MINOR_THIRD, PERFECT_FIFTH, MAJOR_SIXTH], [])

/-- `ChordQuality::can_omit_fifth`. -/
def canOmitFifth : ChordQuality → Bool
  | .Dominant7 | .Major7 | .Minor7 | .MinorMajor7
  | .Dominant9 | .Major9 | .Minor9
  | .Dominant11 | .Minor11
  | .Dominant13 | .Major13 | .Minor13
  | .Dominant7b9 | .Dominant7sharp9 | .Dominant7b5 | .Dominant7sharp5 => true
  | _ => false

end ChordQuality

/-- `chord.rs`: voicing classification. -/
inductive VoicingType where
  | Core | Full | Jazzy
  deriving DecidableEq, Repr

/-- `chord.rs`: a chord. -/
structure Chord where
  root : PitchClass
  quality : ChordQuality
  bass : Option PitchClass := none
  deriving DecidableEq, Repr

namespace Chord

/-- `Chord::notes`: required then optional intervals, each applied to the
root pitch class. -/
def notes (c : Chord) : List PitchClass :=
  let (required, optional) := c.quality.intervals
  (required ++ optional).map fun iv => c.root.addSemitones (iv.toSemitones : Int)

/-- `Chord::core_notes`: required intervals, dropping the perfect fifth when
the quality allows omitting it. -/
def coreNotes (c : Chord) : List PitchClass :=
  let (required, _) := c.quality.intervals
  let skipFifth := c.quality.canOmitFifth
  (required.filter fun iv =>
      if skipFifth then decide (iv.distance ≠ 5 ∨ iv.quality ≠ .Perfect) else true).map
    fun iv => c.root.addSemitones (iv.toSemitones : Int)

end Chord

namespace Chord

/-- `Chord::parse_quality`.  The source lowercases after deleting `♭`/`♯`;
arm order is significant and preserved, including arms that are unreachable
after lowercasing (they are verbatim from the source). -/
def parseQuality (s : String) : Except ChordCraftError ChordQuality :=
  if s = "" then .ok .Major
  else
    let s1 := s.toList.filter fun c => c ≠ '♭' && c ≠ '♯'
    match String.mk (s1.map Char.toLower) with
    | "m(maj7)" | "mmaj7" | "mM7" | "minmaj7" => .ok .MinorMajor7
    | "m7b5" | "m7♭5" | "ø" | "half-dim" | "halfdim" => .ok .HalfDiminished7
    | "madd9" | "m(add9)" => .ok .MinorAdd9
    | "m13" | "min13" => .ok .Minor13
    | "m11" | "min11" => .ok .Minor11
    | "m9" | "min9" => .ok .Minor9
    | "m7" | "min7" => .ok .Minor7
    | "m6" | "min6" => .ok .Minor6
    | "m" | "min" | "-" => .ok .Minor
    | "maj13" | "M13" | "Δ13" => .ok .Major13
    | "maj9" | "M9" | "Δ9" => .ok .Major9
    | "maj7" | "M7" | "Δ7" | "Δ" => .ok .Major7
    | "maj" | "M" => .ok .Major
    | "13" => .ok .Dominant13
    | "11" => .ok .Dominant11
    | "9" => .ok .Dominant9
    | "7#9" | "7♯9" => .ok .Dominant7sharp9
    | "7b9" | "7♭9" => .ok .Dominant7b9
    | "7#5" | "7♯5" | "7aug" | "+7" => .ok .Dominant7sharp5
    | "7b5" | "7♭5" => .ok .Dominant7b5
    | "7" => .ok .Dominant7
    | "dim7" | "°7" | "o7" => .ok .Diminished7
    | "dim" | "°" | "o" => .ok .Diminished
    | "aug" | "+" => .ok .Augmented
    | "sus4" | "sus" => .ok .Sus4
    | "sus2" => .ok .Sus2
    | "add11" => .ok .Add11
    | "add9" => .ok .Add9
    | "6" => .ok .Major6
    | other => .error (.InvalidChordName ("Unknown chord quality: " ++ other))

/-- `Chord::parse` on the character list of the input (the source slices by
byte index; for the ASCII inputs in scope byte and char indices agree).
The slash-chord case recurses on the strictly shorter chord part; the
recursion is made structural on a fuel argument so that concrete inputs
evaluate inside the kernel — `fuel = input length` always suffices (each
recursive call drops at least the slash), so the `fuel = 0` arm is dead
code. -/
def parseCharsGo : Nat → List Char → Except ChordCraftError Chord
  | 0, _ => .error (.InvalidChordName "")
  | fuel + 1, cs =>
    let t := rustTrim cs
    if t = [] then .error (.InvalidChordName (String.mk t))
    else
      match t.findIdx? (· = '/') with
      | some slashPos =>
          let chordPart := t.take slashPos
          let bassPart := t.drop (slashPos + 1)
          match parseCharsGo fuel chordPart with
          | .error e => .error e
          | .ok chord =>
              match PitchClass.parse (String.mk bassPart) with
              | .error e => .error e
              | .ok bass => .ok { chord with bass := some bass }
      | none =>
          let rootEnd :=
            if t.length > 1 && (t.getD 1 ' ' = '#' || t.getD 1 ' ' = 'b') then 2 else 1
          match PitchClass.parse (String.mk (t.take rootEnd)) with
          | .error e => .error e
          | .ok root =>
              match parseQuality (String.mk (t.drop rootEnd)) with
              | .error e => .error e
              | .ok quality => .ok { root := root, quality := quality, bass := none }

/-- `Chord::parse`. -/
def parse (s : String) : Except ChordCraftError Chord :=
  parseCharsGo (s.toList.length + 1) s.toList

end Chord

/-- `fingering.rs`: the state of one string. -/
inductive StringState where
  | Muted
  | Fretted (fret : Nat)
  deriving DecidableEq, Repr

namespace StringState

/-- `StringState::is_played`. -/
def isPlayed : StringState → Bool
  | .Muted => false
  | .Fretted _ => true

/-- `StringState::fret`. -/
def fret : StringState → Option Nat
  | .Muted => none
  | .Fretted f => some f

end StringState

/-- `fingering.rs`: a fingering, lowest (bass) string first. -/
structure Fingering where
  strings : List StringState
  deriving DecidableEq, Repr

/-- `u8::from_str` (as used by `Fingering::parse` for the parenthesised fret
number): an optional leading `+`, then at least one ASCII digit, value at
most 255. -/
def parseU8 (cs : List Char) : Option Nat :=
  let ds := match cs with
    | '+' :: rest => rest
    | _ => cs
  if ds.isEmpty then none
  else if ds.all Char.isDigit then
    let v := ds.foldl (fun a c => a * 10 + (c.toNat - 48)) 0
    if v ≤ 255 then some v else none
  else none

/-- The character loop of `Fingering::parse` (operating on the trimmed
input).  Each step consumes at least one character, so `fuel = input length`
always suffices and the `fuel = 0, _ :: _` arm is dead code; the fuel makes
the recursion structural so concrete inputs evaluate inside the kernel. -/
def parseStatesGo : Nat → List Char → Except ChordCraftError (List StringState)
  | _, [] => .ok []
  | 0, _ :: _ => .error (.InvalidFingering "")
  | fuel + 1, c :: cs =>
      if c = 'x' || c = 'X' then (parseStatesGo fuel cs).map (StringState.Muted :: ·)
      else if '0' ≤ c && c ≤ '9' then
        (parseStatesGo fuel cs).map (StringState.Fretted (c.toNat - 48) :: ·)
      else if c = '(' then
        let numStr := cs.takeWhile (· ≠ ')')
        if numStr.length = cs.length then
          .error (.InvalidFingering "Unclosed parenthesis in fret notation")
        else
          match parseU8 numStr with
          | none => .error (.InvalidFingering ("Invalid fret number: " ++ String.mk numStr))
          | some fret =>
              if fret > 24 then
                .error (.InvalidFingering
                  ("Fret " ++ toString fret ++ " exceeds maximum of 24"))
              else
                (parseStatesGo fuel (cs.drop (numStr.length + 1))).map
                  (StringState.Fretted fret :: ·)
      else if c = ' ' || c = '-' then parseStatesGo fuel cs
      else .error (.InvalidFingering ("Invalid character in fingering: " ++ String.mk [c]))

/-- The character loop of `Fingering::parse` at its standard fuel. -/
def parseStates (cs : List Char) : Except ChordCraftError (List StringState) :=
  parseStatesGo cs.length cs

namespace Fingering

/-- `Fingering::parse`. -/
def parse (s : String) : Except ChordCraftError Fingering :=
  let t := rustTrim s.toList
  if t.isEmpty then .error (.InvalidFingering "Empty fingering")
  else
    match parseStates t with
    | .error e => .error e
    | .ok strings =>
        if strings.isEmpty then .error (.InvalidFingering "No strings found")
        else .ok ⟨strings⟩

/-- `impl Display for Fingering`, one string state. -/
def renderState : StringState → List Char
  | .Muted => ['x']
  | .Fretted fret => if fret < 10 then (Nat.toDigits 10 fret) else
      '(' :: (Nat.toDigits 10 fret) ++ [')']

/-- `impl Display for Fingering`: concatenation of the per-string tokens. -/
def render (f : Fingering) : String :=
  String.mk (f.strings.flatMap renderState)

/-- `Fingering::string_count`. -/
def stringCount (f : Fingering) : Nat := f.strings.length

/-- `Fingering::min_fret`: minimum over fretted strings with fret > 0. -/
def minFret (f : Fingering) : Option Nat :=
  (f.strings.filterMap fun s =>
    match s with
    | .Fretted fr => if fr > 0 then some fr else none
    | _ => none).min?

/-- `Fingering::max_fret`: maximum over all fretted strings (including open). -/
def maxFret (f : Fingering) : Option Nat :=
  (f.strings.filterMap StringState.fret).max?

/-- `Fingering::fret_span`. -/
def fretSpan (f : Fingering) : Nat :=
  let fretted := f.strings.filterMap fun s =>
    match s with
    | .Fretted fr => if fr > 0 then some fr else none
    | _ => none
  if fretted.isEmpty then 0
  else (fretted.max?.getD 0) - (fretted.min?.getD 0)

/-- `Fingering::requires_barre`. -/
def requiresBarre (f : Fingering) : Bool :=
  match f.minFret with
  | some m => (f.strings.countP fun s => s = StringState.Fretted m) ≥ 2
  | none => false

/-- `Fingering::has_barre`. -/
def hasBarre (f : Fingering) : Bool := f.requiresBarre

/-- Append an index to the entry of `fret` in an association list, creating
the entry at the end if absent — the content of
`fret_groups.entry(fret).or_default().push(string_idx)`. -/
def insertGroup : List (Nat × List Nat) → Nat → Nat → List (Nat × List Nat)
  | [], fret, idx => [(fret, [idx])]
  | (f, is) :: rest, fret, idx =>
      if f = fret then (f, is ++ [idx]) :: rest
      else (f, is) :: insertGroup rest fret idx

/-- The grouping of non-open fretted strings by fret number, in first-appearance
(insertion) order, built by both `has_high_barre_with_threshold` (into a
`HashMap`) and `min_fingers_required` (into a `BTreeMap`). -/
def fretGroupsList (f : Fingering) : List (Nat × List Nat) :=
  f.strings.enum.foldl
    (fun gs p =>
      match p.2 with
      | .Fretted fr => if fr > 0 then insertGroup gs fr p.1 else gs
      | .Muted => gs)
    []

/-- Inner loop of `Fingering::count_consecutive_strings` over the sorted
index list. -/
def consecLoop : Nat → Nat → Nat → List Nat → Nat
  | _, maxc, _, [] => maxc
  | prev, maxc, cur, x :: rest =>
      if x = prev + 1 then consecLoop x (max maxc (cur + 1)) (cur + 1) rest
      else consecLoop x maxc 1 rest

/-- `Fingering::count_consecutive_strings`. -/
def countConsecutiveStrings (strings : List Nat) : Nat :=
  if strings.isEmpty then 0
  else
    match strings.insertionSort (· ≤ ·) with
    | [] => 0
    | x :: rest => consecLoop x 1 1 rest

/-- Inner loop of `Fingering::count_fingers_for_strings`: one finger per
maximal run of consecutive indices. -/
def fingersLoop : Nat → List Nat → Nat
  | _, [] => 0
  | prev, x :: rest =>
      if x = prev + 1 then fingersLoop x rest
      else 1 + fingersLoop x rest

/-- `Fingering::count_fingers_for_strings`. -/
def countFingersForStrings (strings : List Nat) : Nat :=
  if strings.isEmpty then 0
  else if strings.length = 1 then 1
  else
    match strings.insertionSort (· ≤ ·) with
    | [] => 0
    | x :: rest => 1 + fingersLoop x rest

/-- `Fingering::min_fingers_required`: the `BTreeMap` iterates groups in
ascending fret order. -/
def minFingersRequired (f : Fingering) : Nat :=
  ((fretGroupsList f).insertionSort (fun a b => a.1 ≤ b.1)).foldl
    (fun acc g => acc + countFingersForStrings g.2) 0

/-- The fold of `has_high_barre_with_threshold` over the fret groups:
`(max_barre_length, max_barre_fret)`, updated on strict improvement. -/
def highBarreFold (groups : List (Nat × List Nat)) : Nat × Nat :=
  groups.foldl
    (fun acc g =>
      let consecutive := countConsecutiveStrings g.2
      if consecutive > acc.1 then (consecutive, g.1) else acc)
    (0, 0)

/-- `Fingering::has_high_barre_with_threshold`.  `ord` makes the `HashMap`
iteration order explicit: it reorders the canonical insertion-ordered group
list (Rust's iteration order is unspecified and can differ between two
otherwise identical invocations). -/
def hasHighBarreWithThreshold (ord : List (Nat × List Nat) → List (Nat × List Nat))
    (f : Fingering) (threshold : Nat) : Bool :=
  match f.minFret with
  | none => false
  | some minF =>
      let res := highBarreFold (ord (fretGroupsList f))
      res.1 ≥ threshold && res.2 > minF

/-- `Fingering::is_playable_with_constraints`. -/
def isPlayableWithConstraints (f : Fingering) (maxStretch maxFingers : Nat) : Bool :=
  if f.fretSpan > maxStretch then false
  else if f.minFingersRequired > maxFingers then false
  else true

/-- `Fingering::interior_open_string_count`. -/
def interiorOpenStringCount (f : Fingering) : Nat :=
  let isPosFret : StringState → Bool := fun s =>
    match s with
    | .Fretted fr => fr > 0
    | _ => false
  let firstFretted := f.strings.findIdx? isPosFret
  let lastFretted := (f.strings.reverse.findIdx? isPosFret).map
    (fun j => f.strings.length - 1 - j)
  match firstFretted, lastFretted with
  | some first, some last =>
      if last > first then
        (((f.strings.drop first).take (last + 1 - first)).countP
          fun s => s = StringState.Fretted 0)
      else 0
  | _, _ => 0

/-- `Fingering::playability_score_with_params`, parameterised (like every
user of the high-barre test) by the `HashMap` iteration order `ord`.  The
`finger_ratio` float comparisons are modelled by the equivalent exact
rational comparisons (see the file header). -/
def playabilityScoreWithParams (ord : List (Nat × List Nat) → List (Nat × List Nat))
    (f : Fingering) (maxStretch maxFingers : Nat) (mainBarreThreshold : Nat)
    (openPositionThreshold : Nat) : Nat :=
  let span := f.fretSpan
  if span > maxStretch then 0
  else
    let score : Int := 100 - (span : Int) * 10
    let fingers := f.minFingersRequired
    if fingers > maxFingers then 0
    else
      let score := score +
        (if maxFingers = 0 then -5
         else if 4 * fingers ≤ maxFingers then 15
         else if 2 * fingers ≤ maxFingers then 10
         else if 4 * fingers ≤ 3 * maxFingers then 0
         else -5)
      let score := score +
        (if f.hasHighBarreWithThreshold ord mainBarreThreshold then -40 else 0)
      let interiorOpens := f.interiorOpenStringCount
      let score := score - (if interiorOpens > 0 then (interiorOpens : Int) * 15 else 0)
      let hasOpenStrings := f.strings.any fun s => s = StringState.Fretted 0
      let isOpen := hasOpenStrings && (f.maxFret.getD 0 ≤ openPositionThreshold)
        && interiorOpens = 0
      let score := score + (if isOpen then 10 else 0)
      let score := score -
        (match f.minFret with
         | some m => if m > 7 then ((m : Int) - 7) * 2 else 0
         | none => 0)
      let mutedCount := f.strings.countP fun s => !s.isPlayed
      let score := score - (if mutedCount > 1 then ((mutedCount : Int) - 1) * 5 else 0)
      ((max 0 (min 100 score)).toNat)

/-- `Fingering::is_open_position_for` (with the instrument threshold passed
explicitly). -/
def isOpenPositionWith (f : Fingering) (openPositionThreshold : Nat) : Bool :=
  (f.strings.any fun s => s = StringState.Fretted 0)
    && f.maxFret.getD 0 ≤ openPositionThreshold

/-- `Fingering::notes` (with the tuning passed explicitly). -/
def notesWith (f : Fingering) (tuning : List Note) : List Note :=
  f.strings.enum.filterMap fun p =>
    if p.1 ≥ tuning.length then none
    else
      match p.2 with
      | .Muted => none
      | .Fretted fret => some ((tuning.getD p.1 ⟨.C, 0⟩).addSemitones (fret : Int))

/-- `Fingering::pitch_classes`. -/
def pitchClassesWith (f : Fingering) (tuning : List Note) : List PitchClass :=
  (f.notesWith tuning).map (·.pitch)

/-- Rust `Vec::dedup`: remove adjacent duplicates. -/
def dedupAdjacent : List PitchClass → List PitchClass
  | [] => []
  | [a] => [a]
  | a :: b :: t =>
      if a = b then dedupAdjacent (b :: t) else a :: dedupAdjacent (b :: t)

/-- `Fingering::unique_pitch_classes`: stable sort by semitone, then dedup of
adjacent equals. -/
def uniquePitchClassesWith (f : Fingering) (tuning : List Note) : List PitchClass :=
  dedupAdjacent ((f.pitchClassesWith tuning).insertionSort
    (fun p q => p.toSemitone ≤ q.toSemitone))

/-- First sounding note in a slice, as scanned by the loops of
`Fingering::bass_note`. -/
def firstSounding (pairs : List (StringState × Note)) : Option Note :=
  pairs.findSome? fun p =>
    match p.1 with
    | .Fretted fret => some (p.2.addSemitones (fret : Int))
    | .Muted => none

/-- `Fingering::bass_note` (with tuning and bass string index passed
explicitly).  The source indexes `strings[bass_idx..string_count]` and
`strings[..bass_idx]`; the slices are modelled with `take`/`drop` (the source
would panic when `bass_idx` exceeds the lengths, a case the theorems exclude
by hypothesis, as every instrument in the repository does). -/
def bassNoteWith (f : Fingering) (tuning : List Note) (bassIdx : Nat) : Option Note :=
  let stringCount := min f.strings.length tuning.length
  let afterSlice := ((f.strings.take stringCount).drop bassIdx).zip
    ((tuning.take stringCount).drop bassIdx)
  match firstSounding afterSlice with
  | some n => some n
  | none => firstSounding ((f.strings.take bassIdx).zip (tuning.take bassIdx))

end Fingering

/-- `instrument.rs`: the `Instrument` trait, modelled as a record of its
queries.  Every implementation in the repository has `string_count =
tuning.len()`, so no separate count field is carried.  The trait's default
values (`max_fingers = 4`, `open_position_threshold = 4`,
`main_barre_threshold = min_played_strings = max(string_count/2, 2)`,
`bass_string_index = 0`) are supplied at each concrete instrument below. -/
structure Instrument where
  tuning : List Note
  fretRange : Nat × Nat
  maxStretch : Nat
  maxFingers : Nat
  openPositionThreshold : Nat
  mainBarreThreshold : Nat
  minPlayedStrings : Nat
  bassStringIndex : Nat
  deriving DecidableEq, Repr

namespace Instrument

/-- The trait-default formula `(string_count / 2).max(2)` shared by
`main_barre_threshold` and `min_played_strings`. -/
def halfMaxTwo (stringCount : Nat) : Nat := max (stringCount / 2) 2

/-- `Instrument::max_capo_fret`: `12.min(fret_range.1 / 2)`. -/
def maxCapoFret (i : Instrument) : Nat := min 12 (i.fretRange.2 / 2)

end Instrument

/-- `Guitar::default()` with the trait defaults filled in. -/
def guitar : Instrument :=
  { tuning := [⟨.E, 2⟩, ⟨.A, 2⟩, ⟨.D, 3⟩, ⟨.G, 3⟩, ⟨.B, 3⟩, ⟨.E, 4⟩]
    fretRange := (0, 24)
    maxStretch := 4
    maxFingers := 4
    openPositionThreshold := 4
    mainBarreThreshold := Instrument.halfMaxTwo 6
    minPlayedStrings := Instrument.halfMaxTwo 6
    bassStringIndex := 0 }

/-- `Ukulele::default()` with its overridden trait methods. -/
def ukulele : Instrument :=
  { tuning := [⟨.G, 4⟩, ⟨.C, 4⟩, ⟨.E, 4⟩, ⟨.A, 4⟩]
    fretRange := (0, 15)
    maxStretch := 5
    maxFingers := 4
    openPositionThreshold := 5
    mainBarreThreshold := 2
    minPlayedStrings := 1
    bassStringIndex := 1 }

/-- `ConfigurableInstrument` built with the given required fields and the
optional overrides (`None` means the trait-default formula), as in
`impl Instrument for ConfigurableInstrument`. -/
def configurableInstrument (tuning : List Note) (fretRange : Nat × Nat) (maxStretch : Nat)
    (maxFingers : Option Nat := none) (openPositionThreshold : Option Nat := none)
    (mainBarreThreshold : Option Nat := none) (minPlayedStrings : Option Nat := none)
    (bassStringIndex : Option Nat := none) : Instrument :=
  { tuning := tuning
    fretRange := fretRange
    maxStretch := maxStretch
    maxFingers := maxFingers.getD 4
    openPositionThreshold := openPositionThreshold.getD 4
    mainBarreThreshold := mainBarreThreshold.getD (Instrument.halfMaxTwo tuning.length)
    minPlayedStrings := minPlayedStrings.getD (Instrument.halfMaxTwo tuning.length)
    bassStringIndex := bassStringIndex.getD 0 }

/-- `CapoedInstrument::new` followed by the delegating
`impl Instrument for CapoedInstrument`: on success, the tuning is transposed
by `Note::add_semitones` and the fret range upper bound is
`saturating_sub`-reduced (`Nat` subtraction); every other query delegates to
the inner instrument unchanged. -/
def capoNew (instrument : Instrument) (fret : Nat) : Except ChordCraftError Instrument :=
  let maxCapo := instrument.maxCapoFret
  if fret > maxCapo then .error (.InvalidCapoPosition fret 0 maxCapo)
  else
    .ok { instrument with
          tuning := instrument.tuning.map (·.addSemitones (fret : Int))
          fretRange := (0, instrument.fretRange.2 - fret) }

/-- `generator.rs`: playing context. -/
inductive PlayingContext where
  | Solo | Band
  deriving DecidableEq, Repr

/-- `generator.rs`: options for fingering generation. -/
structure GeneratorOptions where
  limit : Nat
  preferredPosition : Option Nat
  voicingType : Option VoicingType
  rootInBass : Bool
  maxFret : Nat
  playingContext : PlayingContext
  deriving DecidableEq, Repr

/-- `GeneratorOptions::default()`. -/
def defaultGeneratorOptions : GeneratorOptions :=
  { limit := 10, preferredPosition := none, voicingType := none, rootInBass := true
    maxFret := 12, playingContext := .Solo }

/-- `generator.rs`: a scored fingering.  `score` and `position` are `u8` in
the source (the creation sites reduce mod 256, mirroring the `as u8` casts). -/
structure ScoredFingering where
  fingering : Fingering
  score : Nat
  voicingType : VoicingType
  hasRootInBass : Bool
  position : Nat
  deriving DecidableEq, Repr

/-- `generator.rs::should_continue_branch`. -/
def shouldContinueBranch (current : List StringState) (totalStrings maxStretch minPlayed : Nat) :
    Bool :=
  let played := current.countP StringState.isPlayed
  let remaining := totalStrings - current.length
  if played + remaining < minPlayed then false
  else if played < 2 then true
  else
    let fretted := current.filterMap fun s =>
      match s with
      | .Fretted f => if f > 0 then some f else none
      | _ => none
    if fretted.isEmpty then true
    else (fretted.max?.getD 0) - (fretted.min?.getD 0) ≤ maxStretch

/-- `generator.rs::generate_combinations_pruned` (via
`generate_combinations_for_instrument`): depth-first assignment of one option
per string, descending into a branch only when `should_continue_branch`
passes; a complete assignment (entry with all strings assigned) is recorded. -/
def generateCombinationsPruned (maxStretch minPlayed totalStrings : Nat) :
    List (List StringState) → List StringState → List (List StringState)
  | [], current => [current]
  | opts :: rest, current =>
      opts.flatMap fun state =>
        let cur' := current ++ [state]
        if shouldContinueBranch cur' totalStrings maxStretch minPlayed then
          generateCombinationsPruned maxStretch minPlayed totalStrings rest cur'
        else []

/-- Scoring constants of `generator.rs`. -/
def STRING_USAGE_BONUS : Int := 8
def INTERIOR_MUTE_PENALTY : Int := 30
def POSITION_DISTANCE_PENALTY : Int := 3
def SOLO_ROOT_IN_BASS_BONUS : Int := 30
def SOLO_FULL_VOICING_BONUS : Int := 20
def SOLO_CORE_VOICING_BONUS : Int := 5
def SOLO_JAZZY_WITHOUT_ROOT_PENALTY : Int := 15
def SOLO_POSITION_THRESHOLD : Nat := 5
def SOLO_HIGH_POSITION_PENALTY : Int := 5
def BAND_ROOT_IN_BASS_BONUS : Int := 5
def BAND_COMPACT_VOICING_BONUS : Int := 20
def BAND_FULL_VOICING_BONUS : Int := 5
def BAND_AVOID_LOW_STRINGS_BONUS : Int := 10
def BAND_MID_NECK_MIN : Nat := 3
def BAND_MID_NECK_MAX : Nat := 10
def BAND_POSITION_PENALTY : Int := 3
def GUITAR_LOW_E_STRING : Nat := 0
def GUITAR_A_STRING : Nat := 1

/-- `generator.rs::FingeringScorerOptions`. -/
structure FingeringScorerOptions where
  hasAllNotes : Bool
  hasAllCore : Bool
  hasRootInBass : Bool
  position : Nat
  playedCount : Nat
  voicingType : VoicingType
  deriving DecidableEq, Repr

/-- `generator.rs::score_fingering`. -/
def scoreFingering (ord : List (Nat × List Nat) → List (Nat × List Nat))
    (fingering : Fingering) (instrument : Instrument) (options : GeneratorOptions)
    (fo : FingeringScorerOptions) : Int :=
  let score : Int := (fingering.playabilityScoreWithParams ord instrument.maxStretch
    instrument.maxFingers instrument.mainBarreThreshold instrument.openPositionThreshold : Nat)
  let score := score + (fo.playedCount : Int) * STRING_USAGE_BONUS
  let strings := fingering.strings
  let firstPlayed := strings.findIdx? StringState.isPlayed
  let lastPlayed := (strings.reverse.findIdx? StringState.isPlayed).map
    (fun j => strings.length - 1 - j)
  let score :=
    match firstPlayed, lastPlayed with
    | some first, some last =>
        let interiorMutes := ((strings.drop first).take (last + 1 - first)).countP
          (fun s => !s.isPlayed)
        score - (interiorMutes : Int) * INTERIOR_MUTE_PENALTY
    | _, _ => score
  match options.playingContext with
  | .Solo =>
      let score := score + (if fo.hasRootInBass then SOLO_ROOT_IN_BASS_BONUS else 0)
      let score := score +
        (if fo.hasAllNotes then SOLO_FULL_VOICING_BONUS
         else if fo.hasAllCore then SOLO_CORE_VOICING_BONUS else 0)
      let score := score -
        (if fo.voicingType = .Jazzy && !fo.hasRootInBass then
          SOLO_JAZZY_WITHOUT_ROOT_PENALTY else 0)
      match options.preferredPosition with
      | some prefPos =>
          score - ((fo.position : Int) - (prefPos : Int)).natAbs * POSITION_DISTANCE_PENALTY
      | none =>
          if fo.position > SOLO_POSITION_THRESHOLD then
            score - ((fo.position - SOLO_POSITION_THRESHOLD : Nat) : Int) *
              SOLO_HIGH_POSITION_PENALTY
          else score
  | .Band =>
      let score := score + (if fo.hasRootInBass then BAND_ROOT_IN_BASS_BONUS else 0)
      let score := score +
        (match fo.voicingType with
         | .Core | .Jazzy => BAND_COMPACT_VOICING_BONUS
         | .Full => BAND_FULL_VOICING_BONUS)
      let strings := fingering.strings
      let usesLowE := ((strings.get? GUITAR_LOW_E_STRING).map StringState.isPlayed).getD false
      let usesLowA := ((strings.get? GUITAR_A_STRING).map StringState.isPlayed).getD false
      let score := score + (if !usesLowE && !usesLowA then BAND_AVOID_LOW_STRINGS_BONUS else 0)
      match options.preferredPosition with
      | some prefPos =>
          score - ((fo.position : Int) - (prefPos : Int)).natAbs * POSITION_DISTANCE_PENALTY
      | none =>
          let pos := fo.position
          if BAND_MID_NECK_MIN ≤ pos && pos ≤ BAND_MID_NECK_MAX then score
          else if pos < BAND_MID_NECK_MIN then
            score - ((BAND_MID_NECK_MIN : Int) - (pos : Int)) * BAND_POSITION_PENALTY
          else score - ((pos - BAND_MID_NECK_MAX : Nat) : Int) * BAND_POSITION_PENALTY

/-- The inner loop of `generator.rs::deduplicate_fingerings`; `seen` is the
set of per-string patterns already emitted. -/
def dedupGo (seen : List (List StringState)) : List ScoredFingering → List ScoredFingering
  | [] => []
  | f :: rest =>
      if f.fingering.strings ∈ seen then dedupGo seen rest
      else f :: dedupGo (f.fingering.strings :: seen) rest

/-- `generator.rs::deduplicate_fingerings`. -/
def deduplicateFingerings (fingerings : List ScoredFingering) : List ScoredFingering :=
  dedupGo [] fingerings

/-- The body of the `filter_map` in `generate_fingerings`: filter by
playability, minimum played strings and requested voicing, classify the
voicing, compute position, and score. -/
def scoreCandidate (ord : List (Nat × List Nat) → List (Nat × List Nat)) (chord : Chord)
    (instrument : Instrument) (options : GeneratorOptions) (states : List StringState) :
    Option ScoredFingering :=
  let tuning := instrument.tuning
  let allNotes := chord.notes
  let coreNotes := chord.coreNotes
  let fingering : Fingering := ⟨states⟩
  if !(fingering.isPlayableWithConstraints instrument.maxStretch instrument.maxFingers) then
    none
  else
    let playedCount := states.countP StringState.isPlayed
    if playedCount < instrument.minPlayedStrings then none
    else
      let pitches := fingering.uniquePitchClassesWith tuning
      let hasAllCore := coreNotes.all (pitches.contains ·)
      let hasAllNotes := allNotes.all (pitches.contains ·)
      let voicingType : VoicingType :=
        if hasAllNotes then .Full else if hasAllCore then .Core else .Jazzy
      if (match options.voicingType with
          | some .Full => !hasAllNotes
          | some .Core => !hasAllCore
          | _ => false) then none
      else
        let bassPitch := (fingering.bassNoteWith tuning instrument.bassStringIndex).map (·.pitch)
        let hasRootInBass := bassPitch = some chord.root
        let frettedFrets := states.filterMap fun s =>
          match s with
          | .Fretted f => if f > 0 then some f else none
          | _ => none
        let position :=
          if frettedFrets.isEmpty then 0
          else (frettedFrets.foldl (· + ·) 0 / frettedFrets.length) % 256
        let score := scoreFingering ord fingering instrument options
          { hasAllNotes := hasAllNotes, hasAllCore := hasAllCore
            hasRootInBass := hasRootInBass, position := position
            playedCount := playedCount, voicingType := voicingType }
        some { fingering := fingering
               score := (max score 0).toNat % 256
               voicingType := voicingType
               hasRootInBass := hasRootInBass
               position := position }

/-- The per-string fret options of `generate_fingerings`: for each string,
`Muted` plus every fret in `0..=max_fret` sounding a chord tone. -/
def stringOptionsFor (chord : Chord) (instrument : Instrument) (options : GeneratorOptions) :
    List (List StringState) :=
  let allNotes := chord.notes
  let maxFret := options.maxFret
  instrument.tuning.map fun openNote =>
    StringState.Muted :: ((List.range (maxFret + 1)).filterMap fun fret =>
      if allNotes.contains (openNote.pitch.addSemitones (fret : Int)) then
        some (StringState.Fretted fret)
      else none)

/-- The complete assignments explored by `generate_fingerings` (the
candidates fed to filtering and scoring). -/
def candidateStates (chord : Chord) (instrument : Instrument) (options : GeneratorOptions) :
    List (List StringState) :=
  generateCombinationsPruned instrument.maxStretch instrument.minPlayedStrings
    instrument.tuning.length (stringOptionsFor chord instrument options) []

/-- `generator.rs::generate_fingerings`.  `ord` is the explicit `HashMap`
iteration order used by the high-barre detection (see
`hasHighBarreWithThreshold`). -/
def generateFingerings (ord : List (Nat × List Nat) → List (Nat × List Nat)) (chord : Chord)
    (instrument : Instrument) (options : GeneratorOptions) : List ScoredFingering :=
  let fingerings := candidateStates chord instrument options
  let scored := fingerings.filterMap (scoreCandidate ord chord instrument options)
  let scored := scored.insertionSort (fun a b => b.score ≤ a.score)
  let scored := deduplicateFingerings scored
  scored.take options.limit

/-- `shapes.rs`: a standard movable chord shape. -/
structure StandardShape where
  name : String
  pattern : List (Option Nat)
  stringCount : Nat
  deriving DecidableEq, Repr

namespace StandardShape

/-- First loop of `StandardShape::matches`: determine the base fret from the
`Some(0)` pattern slots; the outer `none` signals inconsistent base frets. -/
def baseScan : List (StringState × Option Nat) → Option Nat → Option (Option Nat)
  | [], acc => some acc
  | (state, expected) :: rest, acc =>
      match state, expected with
      | .Fretted fret, some 0 =>
          match acc with
          | none => baseScan rest (some fret)
          | some bf => if bf ≠ fret then none else baseScan rest (some bf)
      | _, _ => baseScan rest acc

/-- `StandardShape::matches` (`matches` is a Lean keyword, hence the suffix). -/
def matchesIn (shape : StandardShape) (fingering : Fingering) : Option Nat :=
  let strings := fingering.strings
  if strings.length ≠ shape.stringCount then none
  else
    let zipped := strings.zip shape.pattern
    match baseScan zipped none with
    | none => none
    | some base? =>
        let baseFret := base?.getD (fingering.minFret.getD 0)
        if zipped.all fun p =>
            match p.1, p.2 with
            | .Muted, none => true
            | .Fretted _, none => false
            | .Muted, some _ => false
            | .Fretted fret, some offset => fret = baseFret + offset
        then some baseFret
        else none

end StandardShape

/-- The guitar shape catalog of `shapes.rs::guitar` (in `ALL_SHAPES` order). -/
def guitarAllShapes : List StandardShape :=
  [ ⟨"Am", [none, some 0, some 2, some 2, some 1, some 0], 6⟩
  , ⟨"A", [none, some 0, some 2, some 2, some 2, some 0], 6⟩
  , ⟨"Em", [some 0, some 2, some 2, some 0, some 0, some 0], 6⟩
  , ⟨"E", [some 0, some 2, some 2, some 1, some 0, some 0], 6⟩
  , ⟨"C", [none, some 3, some 2, some 0, some 1, some 0], 6⟩
  , ⟨"G", [some 3, some 2, some 0, some 0, some 0, some 3], 6⟩
  , ⟨"D", [none, none, some 0, some 2, some 3, some 2], 6⟩
  , ⟨"Dm", [none, none, some 0, some 2, some 3, some 1], 6⟩ ]

/-- `shapes.rs::guitar::find_matching_shape`: first matching catalog shape. -/
def findMatchingShapeGuitar (fingering : Fingering) : Option (String × Nat) :=
  guitarAllShapes.findSome? fun shape =>
    (shape.matchesIn fingering).map fun baseFret => (shape.name, baseFret)

/-- Transition scoring constants of `progression.rs`. -/
def BASE_SCORE : Int := 100
def MOVEMENT_WEIGHT : Int := 30
def ANCHOR_BONUS : Int := 20
def BARRE_SIMILARITY_BONUS : Int := 15
def OPEN_POSITION_BONUS : Int := 10
def STRING_COUNT_SIMILARITY_BONUS : Int := 5
def DISTANCE_PENALTY : Int := 5
def BAND_MOVEMENT_WEIGHT : Int := 40
def BAND_DISTANCE_PENALTY : Int := 8

/-- `progression.rs`: options. -/
structure ProgressionOptions where
  limit : Nat
  maxFretDistance : Nat
  candidatesPerChord : Nat
  generatorOptions : GeneratorOptions
  deriving DecidableEq, Repr

/-- `ProgressionOptions::default()`. -/
def defaultProgressionOptions : ProgressionOptions :=
  { limit := 3, maxFretDistance := 3, candidatesPerChord := 20
    generatorOptions := defaultGeneratorOptions }

/-- `progression.rs`: a scored transition. -/
structure ChordTransition where
  fromChord : String
  toChord : String
  fromFingering : ScoredFingering
  toFingering : ScoredFingering
  score : Int
  fingerMovements : Nat
  commonAnchors : Nat
  positionDistance : Nat
  deriving DecidableEq, Repr

/-- `progression.rs`: a full progression sequence.  The source additionally
stores `avg_transition_score: f32 = total_score / transitions.len()`, a
redundant floating-point projection of the fields below; it is not modelled
(no claim refers to it). -/
structure ProgressionSequence where
  chords : List String
  fingerings : List ScoredFingering
  transitions : List ChordTransition
  totalScore : Int
  deriving DecidableEq, Repr

/-- `progression.rs::calculate_finger_changes`: `(movements, anchors)` over
the common prefix of the two string lists. -/
def calculateFingerChanges (fromF toF : Fingering) : Nat × Nat :=
  (fromF.strings.zip toF.strings).foldl
    (fun acc p =>
      match p.1, p.2 with
      | .Fretted f1, .Fretted f2 =>
          if f1 = f2 then (acc.1, acc.2 + 1) else (acc.1 + 1, acc.2)
      | .Fretted _, .Muted => (acc.1 + 1, acc.2)
      | .Muted, .Fretted _ => (acc.1 + 1, acc.2)
      | .Muted, .Muted => acc)
    (0, 0)

/-- `progression.rs::calculate_shape_similarity` (the instrument enters only
through the open-position threshold). -/
def calculateShapeSimilarity (fromF toF : Fingering) (instrument : Instrument) : Int :=
  let bonus : Int := if fromF.hasBarre && toF.hasBarre then BARRE_SIMILARITY_BONUS else 0
  let bonus := bonus +
    (if fromF.isOpenPositionWith instrument.openPositionThreshold &&
        toF.isOpenPositionWith instrument.openPositionThreshold then
      OPEN_POSITION_BONUS else 0)
  let fromCount := fromF.strings.countP StringState.isPlayed
  let toCount := toF.strings.countP StringState.isPlayed
  bonus + (if ((fromCount : Int) - (toCount : Int)).natAbs ≤ 1 then
    STRING_COUNT_SIMILARITY_BONUS else 0)

/-- `progression.rs::score_transition`.  `4saturating_sub(movements)` on
`i32` never saturates for any list-length count, so it is plain subtraction;
`unsigned_abs() as u8` on the position difference is reduction mod 256. -/
def scoreTransition (fromChord toChord : String) (fromScored toScored : ScoredFingering)
    (instrument : Instrument) (playingContext : PlayingContext) : ChordTransition :=
  let fromF := fromScored.fingering
  let toF := toScored.fingering
  let fromPos := fromScored.position
  let toPos := toScored.position
  let weights : Int × Int :=
    match playingContext with
    | .Solo => (MOVEMENT_WEIGHT, DISTANCE_PENALTY)
    | .Band => (BAND_MOVEMENT_WEIGHT, BAND_DISTANCE_PENALTY)
  let ma := calculateFingerChanges fromF toF
  let score := BASE_SCORE + (4 - (ma.1 : Int)) * weights.1
  let score := score + (ma.2 : Int) * ANCHOR_BONUS
  let score := score + calculateShapeSimilarity fromF toF instrument
  let distance := (((toPos : Int) - (fromPos : Int)).natAbs) % 256
  let score := score - (distance : Int) * weights.2
  { fromChord := fromChord, toChord := toChord
    fromFingering := fromScored, toFingering := toScored
    score := score, fingerMovements := ma.1, commonAnchors := ma.2
    positionDistance := distance }

/-- The candidate scan of `build_progression_sequence`: keep the transition
with the strictly largest score (the first one wins ties), skipping
candidates whose position distance exceeds the maximum. -/
def bestTransition (fromChordName toChordName : String) (fromSf : ScoredFingering)
    (cands : List ScoredFingering) (instrument : Instrument)
    (playingContext : PlayingContext) (maxFretDistance : Nat) :
    Option (ChordTransition × ScoredFingering) :=
  cands.foldl
    (fun best toSf =>
      let transition := scoreTransition fromChordName toChordName fromSf toSf instrument
        playingContext
      if transition.positionDistance > maxFretDistance then best
      else
        match best with
        | none => some (transition, toSf)
        | some b => if transition.score > b.1.score then some (transition, toSf) else best)
    none

/-- The `for i in 1..chords.len()` loop of `build_progression_sequence`;
`rest` pairs each remaining chord's (original) name with its candidate list. -/
def buildLoop (instrument : Instrument) (playingContext : PlayingContext)
    (maxFretDistance : Nat) (prevName : String) (prev : ScoredFingering) :
    List (String × List ScoredFingering) →
      Option (List ScoredFingering × List ChordTransition)
  | [] => some ([], [])
  | (name, cands) :: rest =>
      match bestTransition prevName name prev cands instrument playingContext
        maxFretDistance with
      | none => none
      | some (t, toSf) =>
          (buildLoop instrument playingContext maxFretDistance name toSf rest).map
            fun p => (toSf :: p.1, t :: p.2)

/-- `progression.rs::build_progression_sequence`.  The source indexes
`candidates[0][start_idx]` unconditionally; the caller guarantees
`start_idx < candidates[0].len()`, so the `none` fallback of the lookup is
dead code. -/
def buildProgressionSequence (chordNames : List String)
    (candidates : List (List ScoredFingering)) (startIdx : Nat)
    (instrument : Instrument) (options : ProgressionOptions) :
    Option ProgressionSequence :=
  match chordNames, candidates with
  | n0 :: _, c0 :: _ =>
      match c0.get? startIdx with
      | none => none
      | some first =>
          let rest := ((chordNames.take candidates.length).drop 1).zip (candidates.drop 1)
          match buildLoop instrument options.generatorOptions.playingContext
            options.maxFretDistance n0 first rest with
          | none => none
          | some (fs, ts) =>
              some { chords := chordNames
                     fingerings := first :: fs
                     transitions := ts
                     totalScore := (ts.map (·.score)).foldl (· + ·) 0 }
  | _, _ => none

/-- `progression.rs::generate_progression`. -/
def generateProgression (ord : List (Nat × List Nat) → List (Nat × List Nat))
    (chordNames : List String) (instrument : Instrument)
    (options : ProgressionOptions) : List ProgressionSequence :=
  let chords := chordNames.filterMap fun name => (Chord.parse name).toOption
  if chords.isEmpty then []
  else
    let candidates := chords.map fun chord =>
      generateFingerings ord chord instrument
        { options.generatorOptions with limit := options.candidatesPerChord }
    if candidates.any (·.isEmpty) then []
    else
      let startLimit := min options.limit (candidates.headD []).length
      let sequences := (List.range startLimit).filterMap fun startIdx =>
        buildProgressionSequence chordNames candidates startIdx instrument options
      (sequences.insertionSort (fun a b => b.totalScore ≤ a.totalScore)).take options.limit

/-! ## Definitions taken from the claims (for comparison with the code) -/

/-- The identity iteration order (one possible `HashMap` order). -/
def idOrd : List (Nat × List Nat) → List (Nat × List Nat) := fun l => l

/-- The reversed iteration order (another possible `HashMap` order). -/
def revOrd : List (Nat × List Nat) → List (Nat × List Nat) := fun l => l.reverse

/-- Following claim C1's wording: the beam search it attributes to
`generate_progression`.  The beam starts as all candidates of the first chord
(length-1 partial sequences with score 0, kept in reverse for O(1) access to
the last choice); each subsequent chord expands every entry by every
candidate whose transition distance is within the maximum, accumulating the
transition score; before the next chord only the top `K = max (3·limit) 10`
entries by accumulated score are kept; at the end the completed sequences are
sorted by total score descending and the top `limit` are returned as
`(fingerings, total score)` pairs. -/
def beamSearchSpec (ord : List (Nat × List Nat) → List (Nat × List Nat))
    (chordNames : List String) (instrument : Instrument) (options : ProgressionOptions) :
    List (List ScoredFingering × Int) :=
  let chords := chordNames.filterMap fun name => (Chord.parse name).toOption
  if chords.isEmpty then []
  else
    let candidates := chords.map fun chord =>
      generateFingerings ord chord instrument
        { options.generatorOptions with limit := options.candidatesPerChord }
    if candidates.any (·.isEmpty) then []
    else
      let K := max (3 * options.limit) 10
      let beam0 : List (List ScoredFingering × Int) :=
        (candidates.headD []).map fun c => ([c], (0 : Int))
      let finalBeam := (candidates.drop 1).foldl
        (fun beam cands =>
          let expanded := beam.flatMap fun entry =>
            cands.filterMap fun c =>
              match entry.1 with
              | [] => none
              | prev :: _ =>
                  let t := scoreTransition "" "" prev c instrument
                    options.generatorOptions.playingContext
                  if t.positionDistance ≤ options.maxFretDistance then
                    some (c :: entry.1, entry.2 + t.score)
                  else none
          (expanded.insertionSort (fun a b => b.2 ≤ a.2)).take K)
        beam0
      ((finalBeam.insertionSort (fun a b => b.2 ≤ a.2)).take options.limit).map
        fun entry => (entry.1.reverse, entry.2)

/-- The observables claim C1 constrains: the chosen fingering sequence and
its total score, for each returned progression. -/
def progressionProj (l : List ProgressionSequence) : List (List ScoredFingering × Int) :=
  l.map fun s => (s.fingerings, s.totalScore)

/-- Following the amended claim C1: the greedy step — among the candidates
whose transition distance is within the maximum, the one with the highest
transition score, the earliest on ties. -/
def greedyBest (instrument : Instrument) (playingContext : PlayingContext)
    (maxFretDistance : Nat) (prevName name : String) (prev : ScoredFingering) :
    List ScoredFingering → Option (ChordTransition × ScoredFingering)
  | [] => none
  | c :: rest =>
      let t := scoreTransition prevName name prev c instrument playingContext
      let restBest := greedyBest instrument playingContext maxFretDistance prevName name prev
        rest
      if t.positionDistance > maxFretDistance then restBest
      else
        match restBest with
        | none => some (t, c)
        | some q => if q.1.score > t.score then some q else some (t, c)

/-- Following the amended claim C1: greedily extend the sequence one chord at
a time, abandoning it when no candidate is within the distance bound. -/
def greedyLoop (instrument : Instrument) (playingContext : PlayingContext)
    (maxFretDistance : Nat) (prevName : String) (prev : ScoredFingering) :
    List (String × List ScoredFingering) →
      Option (List ScoredFingering × List ChordTransition)
  | [] => some ([], [])
  | (name, cands) :: rest =>
      match greedyBest instrument playingContext maxFretDistance prevName name prev cands with
      | none => none
      | some (t, c) =>
          (greedyLoop instrument playingContext maxFretDistance name c rest).map
            fun p => (c :: p.1, t :: p.2)

/-- Following the amended claim C1: the sequence grown greedily from the
`startIdx`-th candidate of the first chord. -/
def greedySequenceSpec (chordNames : List String)
    (candidates : List (List ScoredFingering)) (startIdx : Nat)
    (instrument : Instrument) (options : ProgressionOptions) :
    Option ProgressionSequence :=
  match chordNames, candidates with
  | n0 :: _, c0 :: _ =>
      match c0.get? startIdx with
      | none => none
      | some first =>
          let rest := ((chordNames.take candidates.length).drop 1).zip (candidates.drop 1)
          match greedyLoop instrument options.generatorOptions.playingContext
            options.maxFretDistance n0 first rest with
          | none => none
          | some (fs, ts) =>
              some { chords := chordNames
                     fingerings := first :: fs
                     transitions := ts
                     totalScore := (ts.map (·.score)).foldl (· + ·) 0 }
  | _, _ => none

/-- Following the amended claim C1: one greedy sequence per starting
candidate (the first `min limit #candidates` starts), sorted by total score
descending (stable) and truncated to `limit`. -/
def greedyProgressionSpec (ord : List (Nat × List Nat) → List (Nat × List Nat))
    (chordNames : List String) (instrument : Instrument)
    (options : ProgressionOptions) : List ProgressionSequence :=
  let chords := chordNames.filterMap fun name => (Chord.parse name).toOption
  if chords.isEmpty then []
  else
    let candidates := chords.map fun chord =>
      generateFingerings ord chord instrument
        { options.generatorOptions with limit := options.candidatesPerChord }
    if candidates.any (·.isEmpty) then []
    else
      let startLimit := min options.limit (candidates.headD []).length
      let sequences := (List.range startLimit).filterMap fun startIdx =>
        greedySequenceSpec chordNames candidates startIdx instrument options
      (sequences.insertionSort (fun a b => b.totalScore ≤ a.totalScore)).take options.limit

/-- Following claim C2's wording: base 100, plus `(4 − movements)·weight`,
plus `anchors·20`, plus 50 when both fingerings match the same recognized
movable shape of the shape catalog, plus 15 when both use a barre, plus 10
when both are open position, plus 5 when the played-string counts differ by
at most one, minus the absolute position difference times the distance
weight. -/
def scoreTransitionSpec (fromScored toScored : ScoredFingering) (instrument : Instrument)
    (playingContext : PlayingContext) : Int :=
  let movementWeight : Int := match playingContext with | .Solo => 30 | .Band => 40
  let distanceWeight : Int := match playingContext with | .Solo => 5 | .Band => 8
  let ma := calculateFingerChanges fromScored.fingering toScored.fingering
  let sameShape := guitarAllShapes.any fun shape =>
    (shape.matchesIn fromScored.fingering).isSome && (shape.matchesIn toScored.fingering).isSome
  100 + (4 - (ma.1 : Int)) * movementWeight
    + (ma.2 : Int) * 20
    + (if sameShape then 50 else 0)
    + (if fromScored.fingering.hasBarre && toScored.fingering.hasBarre then 15 else 0)
    + (if fromScored.fingering.isOpenPositionWith instrument.openPositionThreshold &&
          toScored.fingering.isOpenPositionWith instrument.openPositionThreshold then 10 else 0)
    + (if ((fromScored.fingering.strings.countP StringState.isPlayed : Int) -
          (toScored.fingering.strings.countP StringState.isPlayed : Int)).natAbs ≤ 1
        then 5 else 0)
    - (((toScored.position : Int) - (fromScored.position : Int)).natAbs : Int) * distanceWeight

/-- Claim C9 as stated: for any fixed bound some invocation returns a
fingering scoring above it. -/
def ClaimNineUnbounded : Prop :=
  ∀ bound : Nat, ∃ (ord : List (Nat × List Nat) → List (Nat × List Nat)) (chord : Chord)
    (instrument : Instrument) (options : GeneratorOptions)
    (sf : ScoredFingering),
      sf ∈ generateFingerings ord chord instrument options ∧ bound < sf.score

/-- Declarative grammar of the fingering notation: `Toks cs sts` holds when
`cs` decomposes into muted markers, single digits, separators and
parenthesised fret numbers (digit strings accepted by `u8` parsing, value at
most 24), producing the string states `sts` in order. -/
inductive Toks : List Char → List StringState → Prop where
  | nil : Toks [] []
  | muted {c cs sts} (h : c = 'x' ∨ c = 'X') :
      Toks cs sts → Toks (c :: cs) (.Muted :: sts)
  | digit {c cs sts} (h1 : '0' ≤ c) (h2 : c ≤ '9') :
      Toks cs sts → Toks (c :: cs) (.Fretted (c.toNat - 48) :: sts)
  | sep {c cs sts} (h : c = ' ' ∨ c = '-') :
      Toks cs sts → Toks (c :: cs) sts
  | paren {ds cs sts n} (hds : ')' ∉ ds) (hnum : parseU8 ds = some n) (hle : n ≤ 24) :
      Toks cs sts → Toks ('(' :: (ds ++ ')' :: cs)) (.Fretted n :: sts)

/-- Following claim C8's wording: the inputs it lists as the error cases —
an unrecognized character, an unterminated parenthesised group, an empty or
non-numeric number inside parentheses, a parenthesised fret above 24
(emptiness of the whole input is tested separately). -/
def claimScan : Nat → List Char → Bool
  | _, [] => false
  | 0, _ :: _ => false
  | fuel + 1, c :: rest =>
      if c = '(' then
        let ds := rest.takeWhile (· ≠ ')')
        if ds.length = rest.length then true
        else
          match parseU8 ds with
          | none => true
          | some n => if n > 24 then true else claimScan fuel (rest.drop (ds.length + 1))
      else if c = 'x' || c = 'X' || ('0' ≤ c && c ≤ '9') || c = ' ' || c = '-' then
        claimScan fuel rest
      else true

/-- Following claim C8's wording: the full list of claimed error inputs. -/
def claimedErrorCase (s : String) : Bool :=
  s.toList.isEmpty || claimScan s.toList.length s.toList

/-- The largest consecutive-run length among a list of fret groups. -/
def runMax (l : List (Nat × List Nat)) : Nat :=
  (l.map fun g => Fingering.countConsecutiveStrings g.2).foldr max 0

/-- The fret of the first group attaining run length `m` (0 if none). -/
def firstAttainFret (l : List (Nat × List Nat)) (m : Nat) : Nat :=
  ((l.find? fun g => Fingering.countConsecutiveStrings g.2 = m).map Prod.fst).getD 0

/-- The largest consecutive-run length among the fret groups of a
fingering. -/
def maxRunVal (f : Fingering) : Nat := runMax (Fingering.fretGroupsList f)

/-- Merge an accumulator with the best of the remaining candidates, keeping
the accumulator on ties (used to relate the fold of
`build_progression_sequence` to the recursive greedy choice). -/
def combineBest (b r : Option (ChordTransition × ScoredFingering)) :
    Option (ChordTransition × ScoredFingering) :=
  match b, r with
  | none, r => r
  | some b, none => some b
  | some b, some q => if q.1.score > b.1.score then some q else some b

/-- At most one fret group attains the largest consecutive-run length — the
condition under which high-barre detection cannot observe the `HashMap`
iteration order. -/
def UniqueMaxRun (f : Fingering) : Prop :=
  ∀ g1 ∈ Fingering.fretGroupsList f, ∀ g2 ∈ Fingering.fretGroupsList f,
    Fingering.countConsecutiveStrings g1.2 = maxRunVal f →
    Fingering.countConsecutiveStrings g2.2 = maxRunVal f → g1 = g2

instance (f : Fingering) : Decidable (UniqueMaxRun f) := by
  unfold UniqueMaxRun
  infer_instance

/-- Whether string `i` of a fingering is played (claim C10's index view). -/
def isPlayedAt (f : Fingering) (i : Nat) : Bool :=
  ((f.strings.get? i).map StringState.isPlayed).getD false

/-- The sounding note of string `i` (claim C10's index view). -/
def soundAt (f : Fingering) (tuning : List Note) (i : Nat) : Option Note :=
  match f.strings.get? i, tuning.get? i with
  | some (.Fretted fr), some n => some (n.addSemitones (fr : Int))
  | _, _ => none

/-- Tunings whose raw MIDI numbers lie in `0..=127` (no `i8` wrap in
`to_midi` and room for the capo transposition to be computed exactly up to
the clamp). -/
def saneMidiTuning (i : Instrument) : Prop :=
  ∀ n ∈ i.tuning, 0 ≤ (n.octave + 1) * 12 + (n.pitch.toSemitone : Int) ∧
    (n.octave + 1) * 12 + (n.pitch.toSemitone : Int) ≤ 127

/-! ## Concrete instances used by counterexamples and witnesses -/

/-- A two-string instrument (strings tuned C4 and E4) used for the C1
counterexample; a `ConfigurableInstrument` with `min_played_strings = 1`. -/
def twoStringInst : Instrument :=
  configurableInstrument [⟨.C, 4⟩, ⟨.E, 4⟩] (0, 12) 4 none none none (some 1) none

/-- Progression options (limit 1, max distance 1, search up to fret 5) for
the C1 counterexample. -/
def c1Options : ProgressionOptions :=
  { limit := 1, maxFretDistance := 1, candidatesPerChord := 20
    generatorOptions := { defaultGeneratorOptions with maxFret := 5 } }

/-- A four-string `ConfigurableInstrument` (A#3, A#3, C#4, C#4) on which the
candidate `2233` has two fret groups tying for the longest run. -/
def tieInst : Instrument :=
  configurableInstrument [⟨.ASharp, 3⟩, ⟨.ASharp, 3⟩, ⟨.CSharp, 4⟩, ⟨.CSharp, 4⟩] (0, 12) 4

/-- Generator options searching up to fret 3, for the C3 counterexample. -/
def tieOptions : GeneratorOptions := { defaultGeneratorOptions with maxFret := 3 }

/-- A three-string instrument tuned C4-E4-G4 for the C9 score example. -/
def triadInst : Instrument := configurableInstrument [⟨.C, 4⟩, ⟨.E, 4⟩, ⟨.G, 4⟩] (0, 12) 4

/-- Generator options restricted to open strings, for the C9 example. -/
def openOnlyOptions : GeneratorOptions := { defaultGeneratorOptions with maxFret := 0 }

/-- `xx0232` (a D-shape fingering at base fret 0) as a candidate, for C2. -/
def dShapeLow : ScoredFingering :=
  ⟨⟨[.Muted, .Muted, .Fretted 0, .Fretted 2, .Fretted 3, .Fretted 2]⟩, 0, .Jazzy, false, 2⟩

/-- `xx1343` (the same D shape slid to base fret 1) as a candidate, for C2. -/
def dShapeSlid : ScoredFingering :=
  ⟨⟨[.Muted, .Muted, .Fretted 1, .Fretted 3, .Fretted 4, .Fretted 3]⟩, 0, .Jazzy, false, 2⟩

/-- A one-string instrument tuned B8, near the top of the MIDI range, for
the C6 counterexample. -/
def highTuningInst : Instrument := configurableInstrument [⟨.B, 8⟩] (0, 24) 4

instance : IsTotal ScoredFingering (fun a b => b.score ≤ a.score) :=
  ⟨fun a b => Nat.le_total b.score a.score⟩

instance : IsTrans ScoredFingering (fun a b => b.score ≤ a.score) :=
  ⟨fun _ _ _ h1 h2 => Nat.le_trans h2 h1⟩

/-! ## Supporting lemmas -/

theorem mem_dedupGo {x : ScoredFingering} :
    ∀ {seen : List (List StringState)} {l : List ScoredFingering},
      x ∈ dedupGo seen l → x ∈ l
  | _, [], h => by simp [dedupGo] at h
  | seen, f :: rest, h => by
      unfold dedupGo at h
      split at h
      · exact List.mem_cons_of_mem _ (mem_dedupGo h)
      · rcases List.mem_cons.mp h with h | h
        · exact h ▸ List.mem_cons_self _ _
        · exact List.mem_cons_of_mem _ (mem_dedupGo h)

theorem dedupGo_sublist : ∀ (seen : List (List StringState)) (l : List ScoredFingering),
    List.Sublist (dedupGo seen l) l
  | _, [] => by simp [dedupGo]
  | seen, f :: rest => by
      unfold dedupGo
      split
      · exact (dedupGo_sublist seen rest).cons f
      · exact (dedupGo_sublist _ rest).cons₂ f

theorem dedupGo_keys_nodup : ∀ (seen : List (List StringState)) (l : List ScoredFingering),
    ((dedupGo seen l).map fun f => f.fingering.strings).Nodup ∧
      ∀ x ∈ dedupGo seen l, x.fingering.strings ∉ seen
  | _, [] => by simp [dedupGo]
  | seen, f :: rest => by
      unfold dedupGo
      split
      · next hmem =>
          exact ⟨(dedupGo_keys_nodup seen rest).1, (dedupGo_keys_nodup seen rest).2⟩
      · next hmem =>
          obtain ⟨ih1, ih2⟩ := dedupGo_keys_nodup (f.fingering.strings :: seen) rest
          refine ⟨List.nodup_cons.mpr ⟨?_, ih1⟩, ?_⟩
          · intro hc
            obtain ⟨y, hy, hkey⟩ := List.mem_map.mp hc
            exact ih2 y hy (hkey ▸ List.mem_cons_self _ _)
          · intro x hx hxs
            rcases List.mem_cons.mp hx with rfl | hx
            · exact hmem hxs
            · exact ih2 x hx (List.mem_cons_of_mem _ hxs)

/-- Whatever `score_candidate` returns carries the candidate's fingering,
passed the playability filter, and has a `u8` score. -/
theorem scoreCandidate_some {ord chord instrument options states sf}
    (h : scoreCandidate ord chord instrument options states = some sf) :
    sf.fingering = ⟨states⟩ ∧
      Fingering.isPlayableWithConstraints ⟨states⟩ instrument.maxStretch
        instrument.maxFingers = true ∧
      sf.score ≤ 255 := by
  by_cases hp : Fingering.isPlayableWithConstraints ⟨states⟩ instrument.maxStretch
      instrument.maxFingers = true
  · simp only [scoreCandidate, hp] at h
    repeat' split at h
    all_goals cases h
    all_goals exact ⟨rfl, hp, Nat.le_of_lt_succ (Nat.mod_lt _ (by norm_num))⟩
  · simp only [scoreCandidate] at h
    rw [Bool.not_eq_true] at hp
    rw [hp] at h
    simp at h

/-- Every returned fingering arises from a candidate accepted by
`score_candidate`. -/
theorem mem_generateFingerings {ord chord instrument options sf}
    (h : sf ∈ generateFingerings ord chord instrument options) :
    ∃ states, scoreCandidate ord chord instrument options states = some sf := by
  unfold generateFingerings at h
  have h1 := mem_dedupGo (List.mem_of_mem_take h)
  have h2 := (List.perm_insertionSort _ _).mem_iff.mp h1
  obtain ⟨states, _, heq⟩ := List.mem_filterMap.mp h2
  exact ⟨states, heq⟩

/-- Scores of returned fingerings are `u8` values. -/
theorem score_le_255 {ord chord instrument options sf}
    (h : sf ∈ generateFingerings ord chord instrument options) : sf.score ≤ 255 := by
  obtain ⟨states, heq⟩ := mem_generateFingerings h
  exact (scoreCandidate_some heq).2.2

theorem toSemitone_fromSemitone (s : Nat) :
    (PitchClass.fromSemitone s).toSemitone = s % 12 := by
  have h : s % 12 < 12 := Nat.mod_lt _ (by norm_num)
  have key : ∀ t < 12, (PitchClass.fromSemitone t).toSemitone = t := by decide
  have hrw : PitchClass.fromSemitone s = PitchClass.fromSemitone (s % 12) := by
    unfold PitchClass.fromSemitone
    have e : s % 12 % 12 = s % 12 := by omega
    rw [e]
  rw [hrw, key _ h]

/-- `from_midi` inverts `to_midi` on the MIDI range. -/
theorem toMidi_fromMidi (m : Nat) (hm : m ≤ 127) : (Note.fromMidi m).toMidi = m := by
  have h256 : m % 256 = m := Nat.mod_eq_of_lt (by omega)
  unfold Note.fromMidi Note.toMidi Note.i8OfU8
  rw [if_pos (show m % 256 < 128 by omega)]
  have hint : (m : Int) % 256 = (m : Int) := Int.emod_eq_of_lt (by positivity) (by omega)
  rw [h256, hint]
  rw [show Int.tdiv (m : Int) 12 = (m : Int) / 12 from rfl]
  rw [toSemitone_fromSemitone]
  have e2 : m % 12 % 12 = m % 12 := by omega
  rw [e2]
  push_cast
  omega

/-! ## Claim theorems -/

/-- C4: every `ScoredFingering` returned by `generate_fingerings`, for every
chord, instrument and options (and any `HashMap` iteration order), has fret
span at most the instrument's max stretch and barre-aware required-finger
count at most the instrument's max fingers. -/
theorem generateFingerings_playable (ord : List (Nat × List Nat) → List (Nat × List Nat))
    (chord : Chord) (instrument : Instrument) (options : GeneratorOptions)
    (sf : ScoredFingering) (h : sf ∈ generateFingerings ord chord instrument options) :
    sf.fingering.fretSpan ≤ instrument.maxStretch ∧
      sf.fingering.minFingersRequired ≤ instrument.maxFingers := by
  obtain ⟨states, heq⟩ := mem_generateFingerings h
  obtain ⟨hf, hp, _⟩ := scoreCandidate_some heq
  rw [hf]
  unfold Fingering.isPlayableWithConstraints at hp
  split at hp
  · exact absurd hp (by simp)
  · split at hp
    · exact absurd hp (by simp)
    · omega

/-- Witness for C4 at a concrete input: the all-open C major fingering on the
three-string C4-E4-G4 instrument is returned and satisfies the bounds. -/
theorem generateFingerings_playable_witness :
    (⟨⟨[.Fretted 0, .Fretted 0, .Fretted 0]⟩, 174, .Full, true, 0⟩ : ScoredFingering) ∈
        generateFingerings idOrd ⟨.C, .Major, none⟩ triadInst openOnlyOptions ∧
      (⟨[.Fretted 0, .Fretted 0, .Fretted 0]⟩ : Fingering).fretSpan ≤ triadInst.maxStretch ∧
      (⟨[.Fretted 0, .Fretted 0, .Fretted 0]⟩ : Fingering).minFingersRequired ≤
        triadInst.maxFingers :=
  ⟨by decide,
   generateFingerings_playable idOrd ⟨.C, .Major, none⟩ triadInst openOnlyOptions
     ⟨⟨[.Fretted 0, .Fretted 0, .Fretted 0]⟩, 174, .Full, true, 0⟩ (by decide)⟩

/-- The common post-processing of `generate_fingerings` — stable sort by
score descending, pattern dedup, truncation — yields a list sorted by score
(non-increasing), with pairwise-distinct per-string patterns, of length at
most the limit. -/
theorem finalize_props (l : List ScoredFingering) (n : Nat) :
    List.Pairwise (fun a b => b.score ≤ a.score)
        ((deduplicateFingerings
          (l.insertionSort (fun a b => b.score ≤ a.score))).take n) ∧
      (((deduplicateFingerings
          (l.insertionSort (fun a b => b.score ≤ a.score))).take n).map
        fun sf => sf.fingering.strings).Nodup ∧
      ((deduplicateFingerings
          (l.insertionSort (fun a b => b.score ≤ a.score))).take n).length ≤ n := by
  refine ⟨?_, ?_, ?_⟩
  · exact ((List.sorted_insertionSort _ _).sublist (dedupGo_sublist _ _)).sublist
      (List.take_sublist _ _)
  · have hnd := (dedupGo_keys_nodup []
      (l.insertionSort (fun a b => b.score ≤ a.score))).1
    rw [List.map_take]
    exact hnd.sublist (List.take_sublist _ _)
  · simp [List.length_take]

/-- C5: for every chord, instrument and options (and any iteration order),
the returned list is sorted by score in non-increasing order, contains no two
entries with an identical per-string pattern, and has length at most the
requested limit. -/
theorem generateFingerings_sorted_nodup_limited
    (ord : List (Nat × List Nat) → List (Nat × List Nat)) (chord : Chord)
    (instrument : Instrument) (options : GeneratorOptions) :
    List.Pairwise (fun a b => b.score ≤ a.score)
        (generateFingerings ord chord instrument options) ∧
      ((generateFingerings ord chord instrument options).map
        fun sf => sf.fingering.strings).Nodup ∧
      (generateFingerings ord chord instrument options).length ≤ options.limit :=
  finalize_props _ options.limit

/-- C9, counterexample: the claim "for any fixed bound there exist inputs
whose returned score exceeds it" is false — the score is stored in a `u8`
(`score.max(0) as u8`), so no returned score ever exceeds the bound 255. -/
theorem score_not_unbounded : ¬ ClaimNineUnbounded := by
  intro h
  obtain ⟨ord, chord, instrument, options, sf, hmem, hgt⟩ := h 255
  exact absurd (score_le_255 hmem) (by omega)

/-- C9, amended: the score is a ranking signal not clamped to the 0–100
range — a concrete invocation (C major on a C4-E4-G4 instrument) returns a
fingering scoring 174 — but it is stored as a `u8` (truncated mod 256), so
every returned score is at most 255. -/
theorem score_above_100_yet_u8_bounded :
    ((generateFingerings idOrd ⟨.C, .Major, none⟩ triadInst openOnlyOptions).any
        fun sf => decide (100 < sf.score)) = true ∧
      ∀ (ord : List (Nat × List Nat) → List (Nat × List Nat)) (chord : Chord)
        (instrument : Instrument) (options : GeneratorOptions) (sf : ScoredFingering),
        sf ∈ generateFingerings ord chord instrument options → sf.score ≤ 255 :=
  ⟨by decide, fun _ _ _ _ _ hmem => score_le_255 hmem⟩

/-- Witness for C9's amended bound at a concrete returned fingering. -/
theorem score_above_100_yet_u8_bounded_witness :
    (⟨⟨[.Fretted 0, .Fretted 0, .Fretted 0]⟩, 174, .Full, true, 0⟩ : ScoredFingering) ∈
        generateFingerings idOrd ⟨.C, .Major, none⟩ triadInst openOnlyOptions ∧
      (174 : Nat) ≤ 255 :=
  ⟨by decide,
   score_above_100_yet_u8_bounded.2 idOrd ⟨.C, .Major, none⟩ triadInst openOnlyOptions
     ⟨⟨[.Fretted 0, .Fretted 0, .Fretted 0]⟩, 174, .Full, true, 0⟩ (by decide)⟩

/-- C2, counterexample: `xx0232` and `xx1343` both match the catalog's
movable D shape (a shape slide), yet the code's transition score is 105 on
guitar in Solo context while the claim's formula — which adds a 50-point
same-shape bonus — gives 155.  `score_transition` never consults the shape
catalog. -/
theorem scoreTransition_no_shape_bonus :
    (scoreTransition "D" "D" dShapeLow dShapeSlid guitar .Solo).score = 105 ∧
      scoreTransitionSpec dShapeLow dShapeSlid guitar .Solo = 155 ∧
      (scoreTransition "D" "D" dShapeLow dShapeSlid guitar .Solo).score ≠
        scoreTransitionSpec dShapeLow dShapeSlid guitar .Solo := by
  refine ⟨by decide, by decide, by decide⟩

/-- C2, amended: the transition score is base 100, plus `(4 − movements) ×
movement-weight` (30 Solo / 40 Band) where `movements`/`anchors` are computed
by `calculate_finger_changes` over the common string prefix, plus
`anchors × 20`, plus 15 if both fingerings use a barre, plus 10 if both are
open position, plus 5 if the played-string counts differ by at most 1, minus
the absolute position difference times the distance weight (5 Solo /
8 Band) — with no shape-catalog term.  The position hypotheses restate that
`position` is a `u8` in the source. -/
theorem scoreTransition_formula (fromChord toChord : String)
    (fromScored toScored : ScoredFingering) (instrument : Instrument)
    (playingContext : PlayingContext)
    (hfrom : fromScored.position ≤ 255) (hto : toScored.position ≤ 255) :
    (scoreTransition fromChord toChord fromScored toScored instrument
        playingContext).score =
      100 +
        (4 - ((calculateFingerChanges fromScored.fingering toScored.fingering).1 : Int)) *
          (match playingContext with | .Solo => 30 | .Band => 40) +
        ((calculateFingerChanges fromScored.fingering toScored.fingering).2 : Int) * 20 +
        (if fromScored.fingering.hasBarre && toScored.fingering.hasBarre then 15 else 0) +
        (if fromScored.fingering.isOpenPositionWith instrument.openPositionThreshold &&
            toScored.fingering.isOpenPositionWith instrument.openPositionThreshold
          then 10 else 0) +
        (if ((fromScored.fingering.strings.countP StringState.isPlayed : Int) -
            (toScored.fingering.strings.countP StringState.isPlayed : Int)).natAbs ≤ 1
          then 5 else 0) -
        (((toScored.position : Int) - (fromScored.position : Int)).natAbs : Int) *
          (match playingContext with | .Solo => 5 | .Band => 8) := by
  have hmod : ((toScored.position : Int) - (fromScored.position : Int)).natAbs % 256 =
      ((toScored.position : Int) - (fromScored.position : Int)).natAbs := by
    apply Nat.mod_eq_of_lt
    omega
  cases playingContext <;>
    simp only [scoreTransition, calculateShapeSimilarity, BASE_SCORE, MOVEMENT_WEIGHT,
      ANCHOR_BONUS, BARRE_SIMILARITY_BONUS, OPEN_POSITION_BONUS,
      STRING_COUNT_SIMILARITY_BONUS, DISTANCE_PENALTY, BAND_MOVEMENT_WEIGHT,
      BAND_DISTANCE_PENALTY, hmod] <;> ring

/-- C6, counterexample: on a one-string instrument tuned B8 the capo at
fret 12 succeeds (the max capo is 12) but the resulting open pitch is G, not
B — `Note::add_semitones` clamps at MIDI 127, so the pitch is not transposed
up by the offset as the claim states. -/
theorem capo_clamps_high_tuning :
    (capoNew highTuningInst 12).map (fun i => i.tuning.map (·.pitch)) =
        .ok [PitchClass.G] ∧
      (PitchClass.B).addSemitones 12 = PitchClass.B ∧
      PitchClass.G ≠ PitchClass.B := by
  refine ⟨by decide, by decide, by decide⟩

/-- C6, amended: the capo fails with `InvalidCapoPosition(fret, 0, max)`
exactly when the offset exceeds `min 12 (fret_range.1/2)`; on success the new
instrument's fret-range upper bound is reduced by the offset, max stretch,
max fingers, open-position threshold, barre threshold, minimum played
strings and bass string index pass through unchanged, the string count is
preserved, and each open-string pitch is raised by the offset *clamped to
the MIDI range 0–127* (for tunings whose raw MIDI numbers are in range);
the original instrument value is unchanged (all values are immutable). -/
theorem capo_characterization (instrument : Instrument) (fret : Nat) :
    (fret > instrument.maxCapoFret →
      capoNew instrument fret =
        .error (.InvalidCapoPosition fret 0 instrument.maxCapoFret)) ∧
    (fret ≤ instrument.maxCapoFret →
      ∃ capoed, capoNew instrument fret = .ok capoed ∧
        capoed.fretRange = (0, instrument.fretRange.2 - fret) ∧
        capoed.maxStretch = instrument.maxStretch ∧
        capoed.maxFingers = instrument.maxFingers ∧
        capoed.openPositionThreshold = instrument.openPositionThreshold ∧
        capoed.mainBarreThreshold = instrument.mainBarreThreshold ∧
        capoed.minPlayedStrings = instrument.minPlayedStrings ∧
        capoed.bassStringIndex = instrument.bassStringIndex ∧
        capoed.tuning.length = instrument.tuning.length ∧
        (saneMidiTuning instrument →
          ∀ k, k < instrument.tuning.length →
            ((capoed.tuning.getD k ⟨.C, 0⟩).toMidi : Int) =
              min 127 (((instrument.tuning.getD k ⟨.C, 0⟩).toMidi : Int) + fret))) := by
  constructor
  · intro hgt
    simp only [capoNew, if_pos hgt]
  · intro hle
    have hneg : ¬ fret > instrument.maxCapoFret := by omega
    refine ⟨{ instrument with
        tuning := instrument.tuning.map (·.addSemitones (fret : Int))
        fretRange := (0, instrument.fretRange.2 - fret) },
      by simp only [capoNew, if_neg hneg], rfl, rfl, rfl, rfl, rfl, rfl, rfl,
      by simp, ?_⟩
    intro hsane k hk
    have hk2 : k < (instrument.tuning.map (·.addSemitones (fret : Int))).length := by
      simpa using hk
    rw [List.getD_eq_getElem _ _ hk2, List.getD_eq_getElem _ _ hk, List.getElem_map]
    set n := instrument.tuning[k] with hn
    have hsn := hsane n (by rw [hn]; exact List.getElem_mem hk)
    have hraw : (n.toMidi : Int) = (n.octave + 1) * 12 + (n.pitch.toSemitone : Int) := by
      unfold Note.toMidi
      omega
    have htm : (n.toMidi : Int) ≤ 127 := by omega
    have htm0 : (0 : Int) ≤ (n.toMidi : Int) := by positivity
    unfold Note.addSemitones
    have hclamp : (min 127 (max 0 ((n.toMidi : Int) + fret))).toNat =
        (min 127 ((n.toMidi : Int) + fret)).toNat := by omega
    rw [hclamp]
    have hm127 : (min 127 ((n.toMidi : Int) + fret)).toNat ≤ 127 := by omega
    rw [toMidi_fromMidi _ hm127]
    omega

/-- Witness for C2's amended formula at a concrete transition (the `u8`
position hypotheses hold and the formula evaluates to the code's score). -/
theorem scoreTransition_formula_witness :
    (scoreTransition "D" "D" dShapeLow dShapeSlid guitar .Solo).score = 105 := by
  rw [scoreTransition_formula "D" "D" dShapeLow dShapeSlid guitar .Solo (by decide)
    (by decide)]
  decide

/-- Witness for C6 at concrete inputs: capo 20 on a guitar fails with the
typed error, capo 2 succeeds with the characterized result. -/
theorem capo_characterization_witness :
    capoNew guitar 20 = .error (.InvalidCapoPosition 20 0 guitar.maxCapoFret) ∧
      ∃ capoed, capoNew guitar 2 = .ok capoed ∧
        capoed.fretRange = (0, guitar.fretRange.2 - 2) ∧
        capoed.maxStretch = guitar.maxStretch ∧
        capoed.maxFingers = guitar.maxFingers ∧
        capoed.openPositionThreshold = guitar.openPositionThreshold ∧
        capoed.mainBarreThreshold = guitar.mainBarreThreshold ∧
        capoed.minPlayedStrings = guitar.minPlayedStrings ∧
        capoed.bassStringIndex = guitar.bassStringIndex ∧
        capoed.tuning.length = guitar.tuning.length ∧
        (saneMidiTuning guitar →
          ∀ k, k < guitar.tuning.length →
            ((capoed.tuning.getD k ⟨.C, 0⟩).toMidi : Int) =
              min 127 (((guitar.tuning.getD k ⟨.C, 0⟩).toMidi : Int) + 2)) :=
  ⟨(capo_characterization guitar 20).1 (by decide),
   (capo_characterization guitar 2).2 (by decide)⟩

/-- The fold of `has_high_barre_with_threshold` computes the largest run
length together with the fret of the first group attaining it. -/
theorem highBarreFold_from :
    ∀ (l : List (Nat × List Nat)) (acc : Nat × Nat),
      (l.foldl
        (fun acc g =>
          let consecutive := Fingering.countConsecutiveStrings g.2
          if consecutive > acc.1 then (consecutive, g.1) else acc)
        acc) =
      if runMax l > acc.1 then (runMax l, firstAttainFret l (runMax l)) else acc
  | [], acc => by simp [runMax]
  | g :: t, acc => by
      have hM : runMax (g :: t) = max (Fingering.countConsecutiveStrings g.2) (runMax t) := by
        simp [runMax]
      simp only [List.foldl_cons]
      rw [highBarreFold_from t]
      have hfa : ∀ m, firstAttainFret (g :: t) m =
          if Fingering.countConsecutiveStrings g.2 = m then g.1 else firstAttainFret t m := by
        intro m
        unfold firstAttainFret
        rw [List.find?_cons]
        split
        · next hcond => rw [if_pos (by simpa using hcond)]; rfl
        · next hcond => rw [if_neg (by simpa using hcond)]
      by_cases hg : Fingering.countConsecutiveStrings g.2 > acc.1
      · rw [if_pos hg]
        by_cases ht : runMax t > Fingering.countConsecutiveStrings g.2
        · have hmx : max (Fingering.countConsecutiveStrings g.2) (runMax t) = runMax t := by
            omega
          rw [if_pos (by simpa using ht), if_pos (by omega), hM, hmx, hfa]
          rw [if_neg (by omega)]
        · have hmx : max (Fingering.countConsecutiveStrings g.2) (runMax t) =
              Fingering.countConsecutiveStrings g.2 := by omega
          rw [if_neg (by simpa using ht), if_pos (by rw [hM, hmx]; omega), hM, hmx, hfa]
          rw [if_pos rfl]
      · rw [if_neg hg]
        by_cases ht : runMax t > acc.1
        · have hmx : max (Fingering.countConsecutiveStrings g.2) (runMax t) = runMax t := by
            omega
          rw [if_pos ht, if_pos (by rw [hM, hmx]; omega), hM, hmx, hfa]
          rw [if_neg (by omega)]
        · rw [if_neg ht, if_neg (by rw [hM]; omega)]

/-- `runMax` is invariant under permutation. -/
theorem runMax_perm {l1 l2 : List (Nat × List Nat)} (h : l1.Perm l2) :
    runMax l1 = runMax l2 := by
  induction h with
  | nil => rfl
  | cons x _ ih =>
      simp only [runMax, List.map_cons, List.foldr_cons] at *
      omega
  | swap x y t =>
      simp only [runMax, List.map_cons, List.foldr_cons]
      omega
  | trans _ _ ih1 ih2 => omega

/-- A nonzero `runMax` is attained by some group. -/
theorem runMax_attained :
    ∀ (l : List (Nat × List Nat)), runMax l ≠ 0 →
      ∃ g ∈ l, Fingering.countConsecutiveStrings g.2 = runMax l
  | [], h => absurd rfl h
  | g :: t, h => by
      have hM : runMax (g :: t) = max (Fingering.countConsecutiveStrings g.2) (runMax t) := by
        simp [runMax]
      by_cases hge : runMax t ≤ Fingering.countConsecutiveStrings g.2
      · exact ⟨g, List.mem_cons_self _ _, by omega⟩
      · obtain ⟨g', hg', he⟩ := runMax_attained t (by omega)
        exact ⟨g', List.mem_cons_of_mem _ hg', by omega⟩

/-- High-barre detection is independent of the `HashMap` iteration order
when at most one fret group attains the largest run. -/
theorem hasHighBarre_order_eq
    (ord1 ord2 : List (Nat × List Nat) → List (Nat × List Nat))
    (h1 : ∀ l, (ord1 l).Perm l) (h2 : ∀ l, (ord2 l).Perm l)
    (f : Fingering) (threshold : Nat) (huniq : UniqueMaxRun f) :
    f.hasHighBarreWithThreshold ord1 threshold =
      f.hasHighBarreWithThreshold ord2 threshold := by
  unfold Fingering.hasHighBarreWithThreshold
  cases f.minFret with
  | none => rfl
  | some minF =>
      have key : Fingering.highBarreFold (ord1 (Fingering.fretGroupsList f)) =
          Fingering.highBarreFold (ord2 (Fingering.fretGroupsList f)) := by
        unfold Fingering.highBarreFold
        rw [highBarreFold_from, highBarreFold_from]
        have hm1 : runMax (ord1 (Fingering.fretGroupsList f)) = maxRunVal f :=
          runMax_perm (h1 _)
        have hm2 : runMax (ord2 (Fingering.fretGroupsList f)) = maxRunVal f :=
          runMax_perm (h2 _)
        rw [hm1, hm2]
        by_cases h0 : maxRunVal f > 0
        · rw [if_pos h0, if_pos h0]
          have hex1 := runMax_attained (ord1 (Fingering.fretGroupsList f))
            (by omega : runMax (ord1 (Fingering.fretGroupsList f)) ≠ 0)
          have hex2 := runMax_attained (ord2 (Fingering.fretGroupsList f))
            (by omega : runMax (ord2 (Fingering.fretGroupsList f)) ≠ 0)
          rw [hm1] at hex1
          rw [hm2] at hex2
          obtain ⟨ga, hga, hea⟩ := hex1
          obtain ⟨gb, hgb, heb⟩ := hex2
          have hfind1 : ((ord1 (Fingering.fretGroupsList f)).find? fun g =>
              Fingering.countConsecutiveStrings g.2 = maxRunVal f).isSome :=
            List.find?_isSome.mpr ⟨ga, hga, by simpa using hea⟩
          have hfind2 : ((ord2 (Fingering.fretGroupsList f)).find? fun g =>
              Fingering.countConsecutiveStrings g.2 = maxRunVal f).isSome :=
            List.find?_isSome.mpr ⟨gb, hgb, by simpa using heb⟩
          obtain ⟨x1, hx1⟩ := Option.isSome_iff_exists.mp hfind1
          obtain ⟨x2, hx2⟩ := Option.isSome_iff_exists.mp hfind2
          have hx1p := List.find?_some hx1
          have hx2p := List.find?_some hx2
          have hx1m : x1 ∈ Fingering.fretGroupsList f :=
            (h1 _).mem_iff.mp (List.mem_of_find?_eq_some hx1)
          have hx2m : x2 ∈ Fingering.fretGroupsList f :=
            (h2 _).mem_iff.mp (List.mem_of_find?_eq_some hx2)
          have hxeq : x1 = x2 :=
            huniq x1 hx1m x2 hx2m (by simpa using hx1p) (by simpa using hx2p)
          unfold firstAttainFret
          rw [hx1, hx2, hxeq]
        · rw [if_neg h0, if_neg h0]
      rw [key]

/-- `playability_score_with_params` observes the iteration order only
through the high-barre test. -/
theorem playabilityScore_ord_congr
    {ord1 ord2 : List (Nat × List Nat) → List (Nat × List Nat)} {f : Fingering}
    {maxStretch maxFingers mainBarreThreshold openPositionThreshold : Nat}
    (h : f.hasHighBarreWithThreshold ord1 mainBarreThreshold =
      f.hasHighBarreWithThreshold ord2 mainBarreThreshold) :
    f.playabilityScoreWithParams ord1 maxStretch maxFingers mainBarreThreshold
        openPositionThreshold =
      f.playabilityScoreWithParams ord2 maxStretch maxFingers mainBarreThreshold
        openPositionThreshold := by
  unfold Fingering.playabilityScoreWithParams
  rw [h]

/-- `score_fingering` observes the iteration order only through the
playability score. -/
theorem scoreFingering_ord_congr
    {ord1 ord2 : List (Nat × List Nat) → List (Nat × List Nat)} {f : Fingering}
    {instrument : Instrument}
    (h : f.hasHighBarreWithThreshold ord1 instrument.mainBarreThreshold =
      f.hasHighBarreWithThreshold ord2 instrument.mainBarreThreshold) :
    ∀ (options : GeneratorOptions) (fo : FingeringScorerOptions),
      scoreFingering ord1 f instrument options fo = scoreFingering ord2 f instrument options fo := by
  intro options fo
  unfold scoreFingering
  rw [playabilityScore_ord_congr h]

/-- `score_candidate` observes the iteration order only through the score. -/
theorem scoreCandidate_ord_congr
    {ord1 ord2 : List (Nat × List Nat) → List (Nat × List Nat)} {chord : Chord}
    {instrument : Instrument} {options : GeneratorOptions} {states : List StringState}
    (h : Fingering.hasHighBarreWithThreshold ord1 ⟨states⟩ instrument.mainBarreThreshold =
      Fingering.hasHighBarreWithThreshold ord2 ⟨states⟩ instrument.mainBarreThreshold) :
    scoreCandidate ord1 chord instrument options states =
      scoreCandidate ord2 chord instrument options states := by
  unfold scoreCandidate
  simp only [scoreFingering_ord_congr h]

/-- C3, amended: generation is a pure function of its inputs and the
`HashMap` iteration orders used in high-barre detection, and it is
independent of those orders — hence two invocations agree — whenever every
explored candidate has at most one fret group attaining its longest
consecutive run. -/
theorem generateFingerings_order_invariant
    (ord1 ord2 : List (Nat × List Nat) → List (Nat × List Nat))
    (h1 : ∀ l, (ord1 l).Perm l) (h2 : ∀ l, (ord2 l).Perm l)
    (chord : Chord) (instrument : Instrument) (options : GeneratorOptions)
    (huniq : ∀ states ∈ candidateStates chord instrument options, UniqueMaxRun ⟨states⟩) :
    generateFingerings ord1 chord instrument options =
      generateFingerings ord2 chord instrument options := by
  have hfm : List.filterMap (scoreCandidate ord1 chord instrument options)
      (candidateStates chord instrument options) =
      List.filterMap (scoreCandidate ord2 chord instrument options)
        (candidateStates chord instrument options) :=
    List.filterMap_congr fun states hs =>
      scoreCandidate_ord_congr (hasHighBarre_order_eq ord1 ord2 h1 h2 ⟨states⟩
        instrument.mainBarreThreshold (huniq states hs))
  simp only [generateFingerings]
  rw [hfm]

/-- Witness for C3's amended invariance: on the all-open C major search no
candidate has any fret group, so the uniqueness condition holds and the
identity and reversed iteration orders give the same output. -/
theorem generateFingerings_order_invariant_witness :
    generateFingerings idOrd ⟨.C, .Major, none⟩ triadInst openOnlyOptions =
      generateFingerings revOrd ⟨.C, .Major, none⟩ triadInst openOnlyOptions :=
  generateFingerings_order_invariant idOrd revOrd (fun l => List.Perm.refl l)
    (fun l => l.reverse_perm) ⟨.C, .Major, none⟩ triadInst openOnlyOptions (by decide)

/-- C3, counterexample: on the A#3/A#3/C#4/C#4 instrument searching C major
up to fret 3, the candidate `2233` has two fret groups (frets 2 and 3) tying
for the longest run; with the insertion iteration order the high barre is not
detected (score 162) while with the reversed order it is (score 122), so two
otherwise identical invocations differing only in the unordered `HashMap`
iteration produce different result lists. -/
theorem generateFingerings_order_dependent :
    generateFingerings idOrd ⟨.C, .Major, none⟩ tieInst tieOptions ≠
      generateFingerings revOrd ⟨.C, .Major, none⟩ tieInst tieOptions := by
  decide

/-- The fold of `build_progression_sequence`'s candidate scan equals the
greedy choice merged into the accumulator. -/
theorem bestTransition_from (fromChordName toChordName : String) (fromSf : ScoredFingering)
    (instrument : Instrument) (playingContext : PlayingContext) (maxFretDistance : Nat) :
    ∀ (cands : List ScoredFingering) (acc : Option (ChordTransition × ScoredFingering)),
      cands.foldl
        (fun best toSf =>
          let transition := scoreTransition fromChordName toChordName fromSf toSf instrument
            playingContext
          if transition.positionDistance > maxFretDistance then best
          else
            match best with
            | none => some (transition, toSf)
            | some b => if transition.score > b.1.score then some (transition, toSf) else best)
        acc =
      combineBest acc
        (greedyBest instrument playingContext maxFretDistance fromChordName toChordName fromSf
          cands)
  | [], acc => by cases acc <;> rfl
  | c :: t, acc => by
      simp only [List.foldl_cons]
      rw [bestTransition_from fromChordName toChordName fromSf instrument playingContext
        maxFretDistance t]
      show combineBest
          (if (scoreTransition fromChordName toChordName fromSf c instrument
                playingContext).positionDistance > maxFretDistance then acc
           else
             match acc with
             | none => some (scoreTransition fromChordName toChordName fromSf c instrument
                 playingContext, c)
             | some b =>
                 if (scoreTransition fromChordName toChordName fromSf c instrument
                     playingContext).score > b.1.score then
                   some (scoreTransition fromChordName toChordName fromSf c instrument
                     playingContext, c)
                 else acc)
          (greedyBest instrument playingContext maxFretDistance fromChordName toChordName
            fromSf t) =
        combineBest acc
          (greedyBest instrument playingContext maxFretDistance fromChordName toChordName
            fromSf (c :: t))
      have hg : greedyBest instrument playingContext maxFretDistance fromChordName toChordName
          fromSf (c :: t) =
          (if (scoreTransition fromChordName toChordName fromSf c instrument
                playingContext).positionDistance > maxFretDistance then
            greedyBest instrument playingContext maxFretDistance fromChordName toChordName
              fromSf t
          else
            match greedyBest instrument playingContext maxFretDistance fromChordName
                toChordName fromSf t with
            | none => some (scoreTransition fromChordName toChordName fromSf c instrument
                playingContext, c)
            | some q =>
                if q.1.score > (scoreTransition fromChordName toChordName fromSf c instrument
                    playingContext).score then some q
                else some (scoreTransition fromChordName toChordName fromSf c instrument
                  playingContext, c)) := rfl
      rw [hg]
      by_cases hd : (scoreTransition fromChordName toChordName fromSf c instrument
          playingContext).positionDistance > maxFretDistance
      · rw [if_pos hd, if_pos hd]
      · rw [if_neg hd, if_neg hd]
        rcases hgt : greedyBest instrument playingContext maxFretDistance fromChordName
            toChordName fromSf t with _ | q <;>
          rcases acc with _ | b <;>
            simp [combineBest] <;> split_ifs <;> dsimp only <;> (try split_ifs) <;>
              (first | rfl | omega | (exfalso; omega))

/-- `build_progression_sequence`'s per-chord scan is the greedy choice. -/
theorem bestTransition_eq_greedyBest (fromChordName toChordName : String)
    (fromSf : ScoredFingering) (cands : List ScoredFingering) (instrument : Instrument)
    (playingContext : PlayingContext) (maxFretDistance : Nat) :
    bestTransition fromChordName toChordName fromSf cands instrument playingContext
        maxFretDistance =
      greedyBest instrument playingContext maxFretDistance fromChordName toChordName fromSf
        cands := by
  unfold bestTransition
  rw [bestTransition_from]
  rfl

/-- The chord-by-chord loop of `build_progression_sequence` is the greedy
loop. -/
theorem buildLoop_eq_greedyLoop (instrument : Instrument) (playingContext : PlayingContext)
    (maxFretDistance : Nat) :
    ∀ (rest : List (String × List ScoredFingering)) (prevName : String)
      (prev : ScoredFingering),
      buildLoop instrument playingContext maxFretDistance prevName prev rest =
        greedyLoop instrument playingContext maxFretDistance prevName prev rest
  | [], _, _ => rfl
  | (name, cands) :: rest, prevName, prev => by
      unfold buildLoop greedyLoop
      rw [bestTransition_eq_greedyBest]
      rcases greedyBest instrument playingContext maxFretDistance prevName name prev cands with
        _ | ⟨t, toSf⟩
      · rfl
      · show Option.map (fun p => (toSf :: p.1, t :: p.2))
            (buildLoop instrument playingContext maxFretDistance name toSf rest) =
          Option.map (fun p => (toSf :: p.1, t :: p.2))
            (greedyLoop instrument playingContext maxFretDistance name toSf rest)
        exact congrArg _
          (buildLoop_eq_greedyLoop instrument playingContext maxFretDistance rest name toSf)

/-- `build_progression_sequence` builds exactly the greedy sequence. -/
theorem buildSequence_eq_greedy (chordNames : List String)
    (candidates : List (List ScoredFingering)) (startIdx : Nat) (instrument : Instrument)
    (options : ProgressionOptions) :
    buildProgressionSequence chordNames candidates startIdx instrument options =
      greedySequenceSpec chordNames candidates startIdx instrument options := by
  simp only [buildProgressionSequence, greedySequenceSpec, buildLoop_eq_greedyLoop]

/-- C1, amended: `generate_progression` runs one greedy construction per
starting candidate of the first chord (the first `min limit #candidates`
starts, in scored order): at each subsequent chord it takes the candidate
whose transition from the previous choice has the highest score among those
within the maximum fret distance (the earliest on ties), abandoning the
start when none qualifies; the finished sequences are sorted by total
transition score descending (stably) and the top `limit` are returned. -/
theorem generateProgression_is_greedy
    (ord : List (Nat × List Nat) → List (Nat × List Nat)) (chordNames : List String)
    (instrument : Instrument) (options : ProgressionOptions) :
    generateProgression ord chordNames instrument options =
      greedyProgressionSpec ord chordNames instrument options := by
  simp only [generateProgression, greedyProgressionSpec, buildSequence_eq_greedy]

/-- C1, counterexample: on the two-string C4/E4 instrument with the chord
list `["C", "G"]`, result limit 1 and maximum fret distance 1, the code
returns no sequence at all — its single greedy start (the top-scored C
candidate, at position 0) has no allowed transition — while the beam search
the claim describes (which starts from *all* candidates of the first chord)
returns a sequence.  So `generate_progression` does not perform the claimed
beam search. -/
theorem generateProgression_not_beam :
    progressionProj (generateProgression idOrd ["C", "G"] twoStringInst c1Options) ≠
        beamSearchSpec idOrd ["C", "G"] twoStringInst c1Options ∧
      generateProgression idOrd ["C", "G"] twoStringInst c1Options = [] ∧
      beamSearchSpec idOrd ["C", "G"] twoStringInst c1Options ≠ [] := by
  refine ⟨by decide, by decide, by decide⟩

/-- Dropping `k` from `range n` is `range (n - k)` shifted by `k`. -/
theorem drop_range (k n : Nat) :
    (List.range n).drop k = (List.range (n - k)).map (k + ·) := by
  apply List.ext_getElem?
  intro i
  rw [List.getElem?_drop, List.getElem?_map]
  by_cases h : k + i < n
  · rw [List.getElem?_range h, List.getElem?_range (show i < n - k by omega)]
    rfl
  · rw [List.getElem?_eq_none (by rw [List.length_range]; omega),
      List.getElem?_eq_none (by rw [List.length_range]; omega)]
    rfl

/-- Two predicates agreeing on a list give the same `find?` there. -/
theorem find?_congrOn {α : Type} (p q : α → Bool) (l : List α)
    (h : ∀ x ∈ l, p x = q x) : l.find? p = l.find? q := by
  induction l with
  | nil => rfl
  | cons a t ih =>
      rw [List.find?_cons, List.find?_cons, h a (List.mem_cons_self a t),
        ih fun x hx => h x (List.mem_cons_of_mem a hx)]

/-- The scan of `Fingering::bass_note`'s loops, as a `find?` over string
indices. -/
theorem firstSounding_find :
    ∀ (ss : List StringState) (ts : List Note), ss.length = ts.length →
      Fingering.firstSounding (ss.zip ts) =
        ((List.range ss.length).find? (isPlayedAt ⟨ss⟩)).bind (soundAt ⟨ss⟩ ts)
  | [], [], _ => rfl
  | [], _ :: _, h => by simp at h
  | _ :: _, [], h => by simp at h
  | s :: ss, t :: ts, h => by
      have ih := firstSounding_find ss ts (by simpa using h)
      cases s with
      | Fretted fr =>
          simp [Fingering.firstSounding, List.zip_cons_cons, List.findSome?_cons,
            List.length_cons, List.range_succ_eq_map, List.find?_cons, isPlayedAt,
            StringState.isPlayed, soundAt]
      | Muted =>
          have hfs : Fingering.firstSounding ((StringState.Muted :: ss).zip (t :: ts)) =
              Fingering.firstSounding (ss.zip ts) := by
            simp [Fingering.firstSounding, List.zip_cons_cons, List.findSome?_cons]
          rw [hfs, ih]
          rw [List.length_cons, List.range_succ_eq_map, List.find?_cons]
          have hp0 : isPlayedAt ⟨StringState.Muted :: ss⟩ 0 = false := rfl
          rw [hp0]
          rw [List.find?_map]
          have hcomp : (isPlayedAt ⟨StringState.Muted :: ss⟩ ∘ Nat.succ) = isPlayedAt ⟨ss⟩ := by
            funext i
            rfl
          rw [hcomp]
          cases hf : (List.range ss.length).find? (isPlayedAt ⟨ss⟩) with
          | none => rfl
          | some i =>
              show soundAt ⟨ss⟩ ts i =
                soundAt ⟨StringState.Muted :: ss⟩ (t :: ts) (Nat.succ i)
              rfl

/-- A string that `is_played` is `Fretted`. -/
theorem isPlayedAt_fretted (ss : List StringState) (m : Nat)
    (h : isPlayedAt ⟨ss⟩ m = true) : ∃ fr, ss.get? m = some (StringState.Fretted fr) := by
  unfold isPlayedAt at h
  cases hg : ss.get? m with
  | none => rw [show Fingering.strings ⟨ss⟩ = ss from rfl, hg] at h; simp at h
  | some s =>
      cases s with
      | Muted =>
          rw [show Fingering.strings ⟨ss⟩ = ss from rfl, hg] at h
          simp [StringState.isPlayed] at h
      | Fretted fr => exact ⟨fr, rfl⟩

/-- `Fingering::bass_note` equals a single `find?` over the string indices
rotated to start at the bass index. -/
theorem bassNoteWith_eq_find (ss : List StringState) (ts : List Note) (k : Nat)
    (hlen : ss.length = ts.length) (hidx : k ≤ ss.length) :
    Fingering.bassNoteWith ⟨ss⟩ ts k =
      ((((List.range ss.length).drop k ++ (List.range ss.length).take k).find?
          (isPlayedAt ⟨ss⟩)).bind (soundAt ⟨ss⟩ ts)) := by
  have hmin : min ss.length ts.length = ss.length := by omega
  have htss : ss.take (min ss.length ts.length) = ss := by
    rw [hmin]; exact List.take_length ss
  have htts : ts.take (min ss.length ts.length) = ts := by
    rw [hmin]; exact List.take_of_length_le (by omega)
  have hlen_after : (ss.drop k).length = (ts.drop k).length := by
    simp [hlen]
  have hafter := firstSounding_find (ss.drop k) (ts.drop k) hlen_after
  have hplayed_after : ∀ i, isPlayedAt ⟨ss.drop k⟩ i = isPlayedAt ⟨ss⟩ (k + i) := by
    intro i
    simp [isPlayedAt, List.get?_drop]
  have hsound_after : ∀ i, soundAt ⟨ss.drop k⟩ (ts.drop k) i = soundAt ⟨ss⟩ ts (k + i) := by
    intro i
    simp [soundAt, List.get?_drop]
  have hfind_after : (List.range (ss.drop k).length).find? (isPlayedAt ⟨ss.drop k⟩) =
      (List.range (ss.length - k)).find? (fun i => isPlayedAt ⟨ss⟩ (k + i)) := by
    rw [List.length_drop]
    exact find?_congrOn _ _ _ fun i _ => hplayed_after i
  have hdroprange : ((List.range ss.length).drop k).find? (isPlayedAt ⟨ss⟩) =
      ((List.range (ss.length - k)).find? (fun i => isPlayedAt ⟨ss⟩ (k + i))).map (k + ·) := by
    rw [drop_range, List.find?_map]
    rfl
  have hlen_before : (ss.take k).length = (ts.take k).length := by
    simp [hlen]
  have hbefore := firstSounding_find (ss.take k) (ts.take k) hlen_before
  have hlen_take : (ss.take k).length = k := by
    rw [List.length_take]; omega
  have hplayed_before : ∀ i ∈ List.range k, isPlayedAt ⟨ss.take k⟩ i = isPlayedAt ⟨ss⟩ i := by
    intro i hi
    rw [List.mem_range] at hi
    simp [isPlayedAt, List.get?_eq_getElem?, List.getElem?_take_of_lt hi]
  have hfind_before : (List.range (ss.take k).length).find? (isPlayedAt ⟨ss.take k⟩) =
      (List.range k).find? (isPlayedAt ⟨ss⟩) := by
    rw [hlen_take]
    exact find?_congrOn _ _ _ hplayed_before
  have htakerange : (List.range ss.length).take k = List.range k := by
    rw [List.take_range]
    congr 1
    omega
  rw [List.find?_append, hdroprange, htakerange]
  show (match Fingering.firstSounding (((ss.take (min ss.length ts.length)).drop k).zip
      ((ts.take (min ss.length ts.length)).drop k)) with
    | some n => some n
    | none => Fingering.firstSounding ((ss.take k).zip (ts.take k))) = _
  rw [htss, htts]
  rw [hafter, hfind_after]
  cases hfd : (List.range (ss.length - k)).find? (fun i => isPlayedAt ⟨ss⟩ (k + i)) with
  | none =>
      simp only [Option.none_bind, Option.map_none', Option.none_or]
      show Fingering.firstSounding ((ss.take k).zip (ts.take k)) = _
      rw [hbefore, hfind_before]
      cases hfb : (List.range k).find? (isPlayedAt ⟨ss⟩) with
      | none => rfl
      | some j =>
          simp only [Option.some_bind]
          have hjk : j < k := List.mem_range.mp (List.mem_of_find?_eq_some hfb)
          simp [soundAt, List.get?_eq_getElem?, List.getElem?_take_of_lt hjk]
  | some i =>
      have hpl : isPlayedAt ⟨ss⟩ (k + i) = true := by
        have := List.find?_some hfd
        simpa using this
      have hilt : k + i < ss.length := by
        have := List.mem_range.mp (List.mem_of_find?_eq_some hfd)
        omega
      obtain ⟨fr, hget⟩ := isPlayedAt_fretted ss (k + i) hpl
      have htlt : k + i < ts.length := by omega
      obtain ⟨t, hts⟩ : ∃ t, ts.get? (k + i) = some t := by
        rw [List.get?_eq_getElem?]
        exact ⟨ts[k + i], List.getElem?_eq_getElem htlt⟩
      have hsound : soundAt ⟨ss⟩ ts (k + i) = some (t.addSemitones (fr : Int)) := by
        unfold soundAt
        rw [show Fingering.strings ⟨ss⟩ = ss from rfl, hget, hts]
      simp only [Option.some_bind, Option.map_some']
      rw [hsound_after i, hsound]
      rw [show ((some (k + i)).or ((List.range k).find? (isPlayedAt ⟨ss⟩))).bind
        (soundAt ⟨ss⟩ ts) = soundAt ⟨ss⟩ ts (k + i) from rfl, hsound]

/-- `Fingering::bass_note` returns `None` exactly on all-muted fingerings. -/
theorem bassNoteWith_none_iff (ss : List StringState) (ts : List Note) (k : Nat)
    (hlen : ss.length = ts.length) (hidx : k ≤ ss.length) :
    (Fingering.bassNoteWith ⟨ss⟩ ts k = none ↔ ∀ s ∈ ss, s = StringState.Muted) := by
  rw [bassNoteWith_eq_find ss ts k hlen hidx]
  have hperm : ((List.range ss.length).drop k ++ (List.range ss.length).take k).Perm
      (List.range ss.length) := by
    refine List.perm_append_comm.trans ?_
    rw [List.take_append_drop]
  constructor
  · intro h s hs
    by_contra hne
    obtain ⟨i, hi⟩ := List.mem_iff_get?.mp hs
    have hplay : isPlayedAt ⟨ss⟩ i = true := by
      unfold isPlayedAt
      rw [show Fingering.strings ⟨ss⟩ = ss from rfl, hi]
      cases s with
      | Muted => exact absurd rfl hne
      | Fretted fr => rfl
    have hilt : i < ss.length := (List.get?_eq_some.mp hi).1
    have hmem : i ∈ (List.range ss.length).drop k ++ (List.range ss.length).take k :=
      hperm.mem_iff.mpr (List.mem_range.mpr hilt)
    cases hfd : ((List.range ss.length).drop k ++ (List.range ss.length).take k).find?
        (isPlayedAt ⟨ss⟩) with
    | none => exact absurd hplay (by simpa using List.find?_eq_none.mp hfd i hmem)
    | some j =>
        rw [hfd, Option.some_bind] at h
        have hjlt : j < ss.length :=
          List.mem_range.mp (hperm.mem_iff.mp (List.mem_of_find?_eq_some hfd))
        obtain ⟨fr, hget⟩ := isPlayedAt_fretted ss j (List.find?_some hfd)
        obtain ⟨t, hts⟩ : ∃ t, ts.get? j = some t := by
          rw [List.get?_eq_getElem?]
          exact ⟨ts[j], List.getElem?_eq_getElem (by omega)⟩
        rw [show soundAt ⟨ss⟩ ts j = some (t.addSemitones (fr : Int)) from by
          unfold soundAt
          rw [show Fingering.strings ⟨ss⟩ = ss from rfl, hget, hts]] at h
        exact Option.some_ne_none _ h
  · intro h
    have hnone : ((List.range ss.length).drop k ++ (List.range ss.length).take k).find?
        (isPlayedAt ⟨ss⟩) = none := by
      rw [List.find?_eq_none]
      intro i _
      unfold isPlayedAt
      rw [show Fingering.strings ⟨ss⟩ = ss from rfl]
      cases hg : ss.get? i with
      | none => simp
      | some s =>
          have hsm : s = StringState.Muted := h s (List.get?_mem hg)
          subst hsm
          simp [hg, StringState.isPlayed]
    rw [hnone, Option.none_bind]

/-- C10: when the fingering's string count equals the instrument's (and the
bass string index is within range, as it is for every instrument in the
repository — the source would panic otherwise), `bass_note` returns the
sounding pitch of the first played string in the rotated index order "at or
after `bass_string_index`, then before it" — i.e. the first played string at
or after the bass index, with fallback to the first played string before it
— and it returns `None` exactly when every string is muted. -/
theorem bassNote_characterization (f : Fingering) (instrument : Instrument)
    (hlen : f.strings.length = instrument.tuning.length)
    (hidx : instrument.bassStringIndex ≤ f.strings.length) :
    (f.bassNoteWith instrument.tuning instrument.bassStringIndex =
      ((((List.range f.strings.length).drop instrument.bassStringIndex ++
          (List.range f.strings.length).take instrument.bassStringIndex).find?
        (isPlayedAt f)).bind (soundAt f instrument.tuning))) ∧
    (f.bassNoteWith instrument.tuning instrument.bassStringIndex = none ↔
      ∀ s ∈ f.strings, s = StringState.Muted) := by
  obtain ⟨ss⟩ := f
  exact ⟨bassNoteWith_eq_find ss instrument.tuning instrument.bassStringIndex hlen hidx,
    bassNoteWith_none_iff ss instrument.tuning instrument.bassStringIndex hlen hidx⟩

/-- Witness for C10: the ukulele (bass string index 1) with the fingering
`xx03`; the characterization holds there concretely. -/
theorem bassNote_characterization_witness :
    ((⟨[StringState.Muted, StringState.Muted, StringState.Fretted 0,
          StringState.Fretted 3]⟩ : Fingering).strings.length =
        ukulele.tuning.length ∧
      ukulele.bassStringIndex ≤
        (⟨[StringState.Muted, StringState.Muted, StringState.Fretted 0,
            StringState.Fretted 3]⟩ : Fingering).strings.length) ∧
    (((⟨[StringState.Muted, StringState.Muted, StringState.Fretted 0,
          StringState.Fretted 3]⟩ : Fingering).bassNoteWith ukulele.tuning
        ukulele.bassStringIndex =
      ((((List.range (⟨[StringState.Muted, StringState.Muted, StringState.Fretted 0,
            StringState.Fretted 3]⟩ : Fingering).strings.length).drop
              ukulele.bassStringIndex ++
          (List.range (⟨[StringState.Muted, StringState.Muted, StringState.Fretted 0,
            StringState.Fretted 3]⟩ : Fingering).strings.length).take
              ukulele.bassStringIndex).find?
        (isPlayedAt ⟨[StringState.Muted, StringState.Muted, StringState.Fretted 0,
          StringState.Fretted 3]⟩)).bind
        (soundAt ⟨[StringState.Muted, StringState.Muted, StringState.Fretted 0,
          StringState.Fretted 3]⟩ ukulele.tuning))) ∧
    ((⟨[StringState.Muted, StringState.Muted, StringState.Fretted 0,
          StringState.Fretted 3]⟩ : Fingering).bassNoteWith ukulele.tuning
        ukulele.bassStringIndex = none ↔
      ∀ s ∈ (⟨[StringState.Muted, StringState.Muted, StringState.Fretted 0,
          StringState.Fretted 3]⟩ : Fingering).strings, s = StringState.Muted)) :=
  ⟨⟨by decide, by decide⟩,
    bassNote_characterization
      ⟨[StringState.Muted, StringState.Muted, StringState.Fretted 0, StringState.Fretted 3]⟩
      ukulele (by decide) (by decide)⟩

/-- The head of a non-empty `dropWhile` result fails the predicate. -/
theorem head_dropWhile {α : Type} (p : α → Bool) :
    ∀ (l : List α) {h0 : α} {d : List α}, l.dropWhile p = h0 :: d → p h0 = false
  | [], _, _, h => by simp at h
  | a :: l, h0, d, h => by
      rw [List.dropWhile_cons] at h
      split at h
      · exact head_dropWhile p l h
      · cases h
        exact Bool.eq_false_iff.mpr (by assumption)

/-- `takeWhile` up to the first closing parenthesis recovers the digits. -/
theorem takeWhile_append_eq :
    ∀ (ds cs : List Char), ')' ∉ ds →
      (ds ++ ')' :: cs).takeWhile (· ≠ ')') = ds
  | [], cs, _ => by simp [List.takeWhile]
  | d :: ds, cs, h => by
      have hd : d ≠ ')' := fun hc => h (hc ▸ List.mem_cons_self d ds)
      rw [List.cons_append, List.takeWhile_cons, if_pos (by simp [hd]),
        takeWhile_append_eq ds cs (fun hc => h (List.mem_cons_of_mem d hc))]

/-- Dropping past a prefix and one more element. -/
theorem drop_append_cons (ds cs : List Char) (c : Char) :
    (ds ++ c :: cs).drop (ds.length + 1) = cs := by
  have : ds ++ c :: cs = (ds ++ [c]) ++ cs := by simp
  rw [this, show ds.length + 1 = (ds ++ [c]).length by simp]
  exact List.drop_left _ _

/-- When the scan for `)` stops early, the input splits at the first `)`. -/
theorem scan_decompose (cs : List Char)
    (h : (cs.takeWhile (· ≠ ')')).length ≠ cs.length) :
    cs = cs.takeWhile (· ≠ ')') ++ ')' ::
      (cs.drop ((cs.takeWhile (· ≠ ')')).length + 1)) ∧
    ')' ∉ cs.takeWhile (· ≠ ')') := by
  have hsplit := List.takeWhile_append_dropWhile (p := (· ≠ ')')) (l := cs)
  cases hdw : cs.dropWhile (· ≠ ')') with
  | nil =>
      exfalso
      refine h ?_
      conv_rhs => rw [← hsplit, hdw, List.append_nil]
  | cons h0 d =>
      have hh0 : h0 = ')' := by
        have := head_dropWhile (· ≠ ')') cs hdw
        simpa using this
      subst hh0
      have hmem : ')' ∉ cs.takeWhile (· ≠ ')') := by
        intro hmem
        have := List.mem_takeWhile_imp hmem
        simp at this
      have hcs : cs = cs.takeWhile (· ≠ ')') ++ ')' :: d := by
        conv_lhs => rw [← hsplit, hdw]
      obtain ⟨t, ht⟩ : ∃ t, cs.takeWhile (· ≠ ')') = t := ⟨_, rfl⟩
      rw [ht] at hcs hmem ⊢
      refine ⟨?_, hmem⟩
      rw [hcs, drop_append_cons]

/-- An `Except.map` that produced `ok` came from `ok`. -/
theorem except_map_ok {α β γ : Type} (f : α → β) (x : Except γ α) (b : β)
    (h : x.map f = .ok b) : ∃ a, x = .ok a ∧ b = f a := by
  cases x with
  | ok a =>
      refine ⟨a, rfl, ?_⟩
      cases h
      rfl
  | error e => cases h

/-- Soundness: whatever the character loop of `Fingering::parse` accepts
is generated by the token grammar. -/
theorem parseStatesGo_sound : ∀ (fuel : Nat) (cs : List Char) (sts : List StringState),
    parseStatesGo fuel cs = .ok sts → Toks cs sts
  | fuel, [], _, h => by
      have he : parseStatesGo fuel [] = Except.ok [] := by cases fuel <;> rfl
      rw [he] at h
      cases h
      exact Toks.nil
  | 0, c :: cs, sts, h => by
      exact absurd h (by simp [parseStatesGo])
  | fuel + 1, c :: cs, sts, h => by
      simp only [parseStatesGo] at h
      split_ifs at h with h1 h2 h3 h4
      · obtain ⟨sts', hr, hsts⟩ := except_map_ok _ _ _ h
        subst hsts
        exact Toks.muted (by simpa using h1) (parseStatesGo_sound fuel cs sts' hr)
      · obtain ⟨sts', hr, hsts⟩ := except_map_ok _ _ _ h
        subst hsts
        have hd := (show ('0' ≤ c ∧ c ≤ '9') by simpa using h2)
        exact Toks.digit hd.1 hd.2 (parseStatesGo_sound fuel cs sts' hr)
      · split at h
        · cases h
        · rename_i fret hnum
          split at h
          · cases h
          · rename_i hgt
            obtain ⟨sts', hr, hsts⟩ := except_map_ok _ _ _ h
            subst hsts
            subst h3
            obtain ⟨hdecomp, hnotmem⟩ := scan_decompose cs h4
            have htoks := parseStatesGo_sound fuel _ sts' hr
            rw [hdecomp]
            exact Toks.paren hnotmem hnum (by omega) htoks
      · rename_i hsep
        exact Toks.sep (by simpa using hsep) (parseStatesGo_sound fuel cs sts h)

/-- Completeness: the character loop of `Fingering::parse` accepts every
grammar derivation (given enough fuel). -/
theorem toks_complete {cs : List Char} {sts : List StringState} (h : Toks cs sts) :
    ∀ fuel, cs.length ≤ fuel → parseStatesGo fuel cs = .ok sts := by
  induction h with
  | nil =>
      intro fuel _
      cases fuel <;> rfl
  | muted hc _ ih =>
      rename_i c cs sts _
      intro fuel hf
      cases fuel with
      | zero => simp at hf
      | succ f =>
          simp only [parseStatesGo]
          rw [if_pos (by rcases hc with h | h <;> simp [h])]
          rw [ih f (by simpa using hf)]
          rfl
  | digit h1 h2 _ ih =>
      rename_i c cs sts _
      intro fuel hf
      cases fuel with
      | zero => simp at hf
      | succ f =>
          simp only [parseStatesGo]
          rw [if_neg (by
            simp only [Bool.or_eq_true, decide_eq_true_eq]
            rintro (h | h) <;> subst h
            · exact absurd h2 (by decide)
            · exact absurd h2 (by decide))]
          rw [if_pos (by simp [h1, h2])]
          rw [ih f (by simpa using hf)]
          rfl
  | sep hc _ ih =>
      rename_i c cs sts _
      intro fuel hf
      cases fuel with
      | zero => simp at hf
      | succ f =>
          simp only [parseStatesGo]
          rcases hc with h | h <;> subst h <;>
            rw [if_neg (by decide), if_neg (by decide), if_neg (by decide),
              if_pos (by decide), ih f (by simpa using hf)]
  | paren hds hnum hle _ ih =>
      rename_i ds cs sts n _
      intro fuel hf
      cases fuel with
      | zero => simp at hf
      | succ f =>
          simp only [parseStatesGo]
          rw [takeWhile_append_eq ds cs hds]
          rw [if_neg (show ¬((decide ('(' = 'x') || decide ('(' = 'X')) = true) by decide)]
          rw [if_neg (show ¬((decide ('0' ≤ '(') && decide ('(' ≤ '9')) = true) by decide)]
          rw [if_true]
          rw [if_neg (show ¬(ds.length = (ds ++ ')' :: cs).length) by simp)]
          rw [hnum]
          dsimp only
          rw [if_neg (by omega)]
          rw [drop_append_cons]
          rw [ih f (by simp at hf ⊢; omega)]
          rfl

/-- The empty input derives only the empty state list. -/
theorem toks_nil {sts : List StringState} (h : Toks [] sts) : sts = [] := by
  cases h
  rfl

/-- `dropWhile` of a list with no matching elements. -/
theorem dropWhile_eq_self {α : Type} (p : α → Bool) :
    ∀ (l : List α), (∀ c ∈ l, p c = false) → l.dropWhile p = l
  | [], _ => rfl
  | c :: t, h => by
      rw [List.dropWhile_cons, if_neg (by simp [h c (List.mem_cons_self c t)])]

/-- Trimming an input with no whitespace changes nothing. -/
theorem rustTrim_eq_self (cs : List Char) (h : ∀ c ∈ cs, c.isWhitespace = false) :
    rustTrim cs = cs := by
  unfold rustTrim
  rw [dropWhile_eq_self _ cs h,
    dropWhile_eq_self _ cs.reverse (fun c hc => h c (List.mem_reverse.mp hc)),
    List.reverse_reverse]

/-- Rendered string-state tokens contain no whitespace (frets up to 24). -/
theorem renderState_chars (s : StringState) (hs : s.fret.getD 0 ≤ 24) :
    ∀ c ∈ Fingering.renderState s, c.isWhitespace = false := by
  cases s with
  | Muted =>
      intro c hc
      simp [Fingering.renderState] at hc
      subst hc
      decide
  | Fretted fr =>
      have hfr : fr ≤ 24 := by simpa [StringState.fret] using hs
      interval_cases fr <;> decide

/-- Every rendered fingering (frets up to 24) derives its own state list
in the token grammar. -/
theorem toks_render : ∀ (sts : List StringState), (∀ s ∈ sts, s.fret.getD 0 ≤ 24) →
    Toks (sts.flatMap Fingering.renderState) sts
  | [], _ => Toks.nil
  | s :: rest, h => by
      have hrest := toks_render rest (fun x hx => h x (List.mem_cons_of_mem s hx))
      rw [List.flatMap_cons]
      cases s with
      | Muted => exact Toks.muted (Or.inl rfl) hrest
      | Fretted fr =>
          have hfr : fr ≤ 24 := by
            simpa [StringState.fret] using h _ (List.mem_cons_self _ rest)
          interval_cases fr
          · exact Toks.digit (by decide) (by decide) hrest
          · exact Toks.digit (by decide) (by decide) hrest
          · exact Toks.digit (by decide) (by decide) hrest
          · exact Toks.digit (by decide) (by decide) hrest
          · exact Toks.digit (by decide) (by decide) hrest
          · exact Toks.digit (by decide) (by decide) hrest
          · exact Toks.digit (by decide) (by decide) hrest
          · exact Toks.digit (by decide) (by decide) hrest
          · exact Toks.digit (by decide) (by decide) hrest
          · exact Toks.digit (by decide) (by decide) hrest
          · exact @Toks.paren ['1', '0'] _ _ 10 (by decide) (by decide) (by decide) hrest
          · exact @Toks.paren ['1', '1'] _ _ 11 (by decide) (by decide) (by decide) hrest
          · exact @Toks.paren ['1', '2'] _ _ 12 (by decide) (by decide) (by decide) hrest
          · exact @Toks.paren ['1', '3'] _ _ 13 (by decide) (by decide) (by decide) hrest
          · exact @Toks.paren ['1', '4'] _ _ 14 (by decide) (by decide) (by decide) hrest
          · exact @Toks.paren ['1', '5'] _ _ 15 (by decide) (by decide) (by decide) hrest
          · exact @Toks.paren ['1', '6'] _ _ 16 (by decide) (by decide) (by decide) hrest
          · exact @Toks.paren ['1', '7'] _ _ 17 (by decide) (by decide) (by decide) hrest
          · exact @Toks.paren ['1', '8'] _ _ 18 (by decide) (by decide) (by decide) hrest
          · exact @Toks.paren ['1', '9'] _ _ 19 (by decide) (by decide) (by decide) hrest
          · exact @Toks.paren ['2', '0'] _ _ 20 (by decide) (by decide) (by decide) hrest
          · exact @Toks.paren ['2', '1'] _ _ 21 (by decide) (by decide) (by decide) hrest
          · exact @Toks.paren ['2', '2'] _ _ 22 (by decide) (by decide) (by decide) hrest
          · exact @Toks.paren ['2', '3'] _ _ 23 (by decide) (by decide) (by decide) hrest
          · exact @Toks.paren ['2', '4'] _ _ 24 (by decide) (by decide) (by decide) hrest

/-- C8, amended: `Fingering::parse` succeeds exactly on the inputs whose
trimmed form derives a non-empty state list in the token grammar; it fails
exactly on: empty (after trimming) input, an unrecognized character, an
unterminated parenthesised group, an empty or non-numeric number inside
parentheses, a parenthesised fret above 24, or an input of separator
characters only (which produces no string token) — the last case is absent
from the claim's list. -/
theorem parse_ok_iff_grammar (s : String) :
    (∃ f, Fingering.parse s = .ok f) ↔
      ∃ sts, sts ≠ [] ∧ Toks (rustTrim s.toList) sts := by
  simp only [Fingering.parse]
  by_cases he : (rustTrim s.toList).isEmpty
  · rw [if_pos he]
    constructor
    · rintro ⟨f, hf⟩
      cases hf
    · rintro ⟨sts, hne, htk⟩
      rw [List.isEmpty_iff.mp he] at htk
      exact absurd (toks_nil htk) hne
  · rw [if_neg he]
    constructor
    · rintro ⟨f, hf⟩
      cases hps : parseStates (rustTrim s.toList) with
      | error e =>
          rw [hps] at hf
          cases hf
      | ok strings =>
          rw [hps] at hf
          dsimp only at hf
          by_cases hse : strings.isEmpty
          · rw [if_pos hse] at hf
            cases hf
          · refine ⟨strings, fun h0 => hse (by simp [h0]), ?_⟩
            exact parseStatesGo_sound _ _ _ hps
    · rintro ⟨sts, hne, htk⟩
      have hps : parseStates (rustTrim s.toList) = .ok sts :=
        toks_complete htk _ le_rfl
      rw [hps]
      dsimp only
      rw [if_neg (fun hc => hne (List.isEmpty_iff.mp hc))]
      exact ⟨⟨sts⟩, rfl⟩

/-- C7: parsing a rendered fingering (non-empty, frets at most 24) returns
exactly that fingering.  The claim's canonical minimal notation strings are
precisely the rendered forms of such fingerings ('x' for muted, one digit
below fret 10, a parenthesised number for 10-24, no separators), and
rendering is a function, so parse-then-format is the identity on them. -/
theorem parse_render_roundtrip (f : Fingering) (hne : f.strings ≠ [])
    (hfr : ∀ s ∈ f.strings, s.fret.getD 0 ≤ 24) :
    Fingering.parse f.render = .ok f := by
  have htk : Toks (f.strings.flatMap Fingering.renderState) f.strings := toks_render _ hfr
  have hws : ∀ c ∈ f.strings.flatMap Fingering.renderState, c.isWhitespace = false := by
    intro c hc
    rw [List.mem_flatMap] at hc
    obtain ⟨s, hs, hcs⟩ := hc
    exact renderState_chars s (hfr s hs) c hcs
  have htl : (Fingering.render f).toList = f.strings.flatMap Fingering.renderState := rfl
  simp only [Fingering.parse]
  rw [htl, rustTrim_eq_self _ hws]
  have hne' : f.strings.flatMap Fingering.renderState ≠ [] := by
    intro h0
    rw [h0] at htk
    exact hne (toks_nil htk)
  rw [if_neg (fun hc => hne' (List.isEmpty_iff.mp hc))]
  have hps : parseStates (f.strings.flatMap Fingering.renderState) = .ok f.strings :=
    toks_complete htk _ le_rfl
  rw [hps]
  dsimp only
  rw [if_neg (fun hc => hne (List.isEmpty_iff.mp hc))]

/-- Witness for C7: the fingering `x3(12)` round-trips. -/
theorem parse_render_roundtrip_witness :
    ((⟨[StringState.Muted, StringState.Fretted 3, StringState.Fretted 12]⟩ : Fingering).strings ≠ [] ∧
      ∀ s ∈ (⟨[StringState.Muted, StringState.Fretted 3, StringState.Fretted 12]⟩ : Fingering).strings, s.fret.getD 0 ≤ 24) ∧
    Fingering.parse (⟨[StringState.Muted, StringState.Fretted 3, StringState.Fretted 12]⟩ : Fingering).render = .ok ⟨[StringState.Muted, StringState.Fretted 3, StringState.Fretted 12]⟩ :=
  ⟨⟨by decide, by decide⟩, parse_render_roundtrip ⟨[StringState.Muted, StringState.Fretted 3, StringState.Fretted 12]⟩ (by decide) (by decide)⟩

/-- C8, counterexample: the input `"-"` is non-empty, contains only
recognized characters and no parenthesis, yet `Fingering::parse` rejects it
(the "No strings found" error) — an error case missing from the claim's
list, so the claimed "on every other input it succeeds" fails. -/
theorem parse_separator_only_errors :
    (∃ e, Fingering.parse "-" = .error e) ∧ claimedErrorCase "-" = false :=
  ⟨⟨.InvalidFingering "No strings found", by decide⟩, by decide⟩

end ChordCraft
